import Mathlib

/-!
QcStackLayout (QtCollider/layouts/stack_layout.cpp)

A shallow embedding of the stacked layout of the SuperCollider Qt GUI and
proofs about its index bookkeeping, visibility policy and size negotiation.

Modelling conventions
* A widget (`QWidget *`, never null once wrapped in a `QWidgetItem`) is a
  natural number naming the object; a possibly-null pointer is an `Option`.
  The tests `if (QWidget *widget = _list.at(i)->widget())` of the source
  therefore always succeed and are not repeated in the loops below.
* `_list` is the list of the widgets wrapped by the `QWidgetItem`s, in order.
* C++ `int` is `Int`: the code only compares indices and moves them by one.
* The widget-side state that the layout reads and writes through the toolkit
  (shown/hidden flag, geometry, stacking order among siblings, focus holder)
  is the record `Widgets`; the static facts the layout only queries (size
  hints, policies, ancestor relation, focus chain) are the record `Toolkit`.
* `parent->setUpdatesEnabled(false)` ... `(true)` in `setCurrentIndex`
  restores the flag it changed and is not part of the state; the base class
  call `QLayout::invalidate()` only marks cached toolkit data dirty.
-/

namespace QcStackLayout

/-! ## Toolkit value types -/

/-- QSize of the toolkit: a width and a height. -/
structure QSize where
  width : Int
  height : Int
deriving DecidableEq, Repr

/-- QSize::expandedTo: componentwise maximum. -/
def QSize.expandedTo (s other : QSize) : QSize :=
  ⟨max s.width other.width, max s.height other.height⟩

/-- QSize::boundedTo: componentwise minimum. -/
def QSize.boundedTo (s other : QSize) : QSize :=
  ⟨min s.width other.width, min s.height other.height⟩

/-- QRect of the toolkit, stored as its two corners like the toolkit does. -/
structure QRect where
  x1 : Int
  y1 : Int
  x2 : Int
  y2 : Int
deriving DecidableEq, Repr

/-- The default-constructed rectangle `QRect()`. -/
def QRect.null : QRect := ⟨0, 0, -1, -1⟩

/-- QRect::isNull: width and height are both zero. -/
def QRect.isNull (r : QRect) : Bool :=
  r.x2 == r.x1 - 1 && r.y2 == r.y1 - 1

/-- Modelled from the spec: the toolkit's per-dimension sizing policy
(`QSizePolicy::Policy`, declared by the toolkit and not by this repository).
Only the two observations the code makes of it are kept: whether it is the
policy `Ignored`, and whether it carries the shrink flag. -/
structure Policy where
  isIgnored : Bool
  hasShrinkFlag : Bool
deriving DecidableEq, Repr

/-- QSizePolicy: one policy per dimension. -/
structure QSizePolicy where
  horizontalPolicy : Policy
  verticalPolicy : Policy
deriving DecidableEq, Repr

/-- The two stacking modes of the layout. -/
inductive StackingMode where
  | StackOne
  | StackAll
deriving DecidableEq, Repr

/-- What `parent()` and `parentWidget()` of the layout return: no parent at
all, a parent (an enclosing layout) that leads to no widget, or a parent
that is or leads to a widget. -/
inductive Parent where
  | none
  | noWidget
  | withWidget
deriving DecidableEq, Repr

/-- Facts about widgets that the layout only reads. -/
structure Toolkit where
  /-- The result of `w->sizeHint()`. -/
  sizeHint : Nat → QSize
  /-- The result of `w->minimumSizeHint()`. -/
  minimumSizeHint : Nat → QSize
  /-- The result of `w->minimumSize()`. -/
  minimumSize : Nat → QSize
  /-- The result of `w->maximumSize()`. -/
  maximumSize : Nat → QSize
  /-- The result of `w->sizePolicy()`. -/
  sizePolicy : Nat → QSizePolicy
  /-- The result of `a->isAncestorOf(b)`. -/
  isAncestorOf : Nat → Nat → Bool
  /-- The result of `w->focusWidget()`. -/
  focusWidget : Nat → Option Nat
  /-- The widgets that repeated `nextInFocusChain()` visits starting after
  the given one, up to but not including the given one -/
  focusChain : Nat → List Nat
  /-- The test `(i->focusPolicy() & Qt::TabFocus) == Qt::TabFocus &&
  !i->focusProxy() && i->isVisibleTo(next) && i->isEnabled()`, for `i` and `next`. -/
  tabFocusable : Nat → Nat → Bool

/-- Widget-side state the layout changes through toolkit calls. -/
structure Widgets where
  /-- Shown (`show()`, `setVisible(true)`) or hidden -/
  visible : Nat → Bool
  /-- The rectangle last given to `setGeometry` -/
  geometry : Nat → QRect
  /-- Stacking order among siblings, bottom first -/
  zorder : List Nat
  /-- The widget holding keyboard focus in the window, if any -/
  focus : Option Nat

/-- The layout object together with the widget state it acts on. -/
structure Stack where
  _list : List Nat
  _index : Int
  _mode : StackingMode
  _gotParent : Bool
  parent : Parent
  ui : Widgets

/-! ## Toolkit calls on widgets -/

/-- The call `w->setVisible(b)`. -/
def setVisible (s : Stack) (w : Nat) (b : Bool) : Stack :=
  { s with ui := { s.ui with visible := fun x => if x = w then b else s.ui.visible x } }

/-- The call `w->hide()`. -/
def hideWidget (s : Stack) (w : Nat) : Stack := setVisible s w false

/-- The call `w->show()`. -/
def showWidget (s : Stack) (w : Nat) : Stack := setVisible s w true

/-- The call `w->setGeometry(r)`. -/
def setWidgetGeometry (s : Stack) (w : Nat) (r : QRect) : Stack :=
  { s with ui := { s.ui with geometry := fun x => if x = w then r else s.ui.geometry x } }

/-- The call `w->raise()`: to the top of the stacking order. -/
def raise (s : Stack) (w : Nat) : Stack :=
  { s with ui := { s.ui with zorder := s.ui.zorder.erase w ++ [w] } }

/-- The call `w->lower()`: to the bottom of the stacking order. -/
def lower (s : Stack) (w : Nat) : Stack :=
  { s with ui := { s.ui with zorder := w :: s.ui.zorder.erase w } }

/-- The call `w->clearFocus()`: takes focus away if `w` itself holds it. -/
def clearFocus (s : Stack) (w : Nat) : Stack :=
  { s with ui := { s.ui with focus := if s.ui.focus = some w then Option.none else s.ui.focus } }

/-- The call `w->setFocus()`. -/
def setFocus (s : Stack) (w : Nat) : Stack :=
  { s with ui := { s.ui with focus := some w } }

/-- Modelled from the spec: `QLayout::addChildWidget` belongs to the toolkit;
it "reparents the component under the container", which touches none of the
fields modelled here. -/
def addChildWidget (s : Stack) (_w : Nat) : Stack := s

/-- The call `QList::insert(i, v)` for `0 <= i <= size()`. -/
def insertAt (l : List Nat) (i : Nat) (v : Nat) : List Nat :=
  l.take i ++ v :: l.drop i

/-! ## The layout -/

/-- The constructor `QcStackLayout::QcStackLayout()`: an empty stack with no parent, over the
given widget state. -/
def new (ui : Widgets) : Stack :=
  { _list := [], _index := -1, _mode := StackingMode.StackOne, _gotParent := false,
    parent := Parent.none, ui := ui }

/-- Method `QcStackLayout::count` -/
def count (s : Stack) : Int := s._list.length

/-- Method `QcStackLayout::currentIndex` -/
def currentIndex (s : Stack) : Int := s._index

/-- Method `QcStackLayout::stackingMode` -/
def stackingMode (s : Stack) : StackingMode := s._mode

/-- Method `QcStackLayout::currentWidget` -/
def currentWidget (s : Stack) : Option Nat :=
  if s._index ≥ 0 then s._list[s._index.toNat]? else Option.none

/-- Method `QcStackLayout::widget` -/
def widget (s : Stack) (index : Int) : Option Nat :=
  if index < 0 ∨ index ≥ s._list.length then Option.none
  else s._list[index.toNat]?

/-- Method `QcStackLayout::itemAt`: `QList::value` gives the null item out of range. -/
def itemAt (s : Stack) (index : Int) : Option Nat :=
  if index < 0 ∨ index ≥ s._list.length then Option.none
  else s._list[index.toNat]?

/-- The focus hand-over at the end of `setCurrentIndex` (lines 138-159). -/
def retargetFocus (tk : Toolkit) (s : Stack) (fw : Option Nat) (prev : Option Nat)
    (next : Nat) : Stack :=
  if s.parent = Parent.withWidget then
    match fw, prev with
    | some f, some p =>
      if tk.isAncestorOf p f then
        match tk.focusWidget next with
        | some nfw => setFocus s nfw
        | Option.none =>
          match (tk.focusChain f).find?
              (fun i => tk.tabFocusable i next && tk.isAncestorOf next i) with
          | some i => setFocus s i
          | Option.none => setFocus s next
      else s
    | _, _ => s
  else s

/-- Method `QcStackLayout::setCurrentIndex` -/
def setCurrentIndex (tk : Toolkit) (s : Stack) (index : Int) : Stack :=
  let prev := currentWidget s
  match widget s index with
  | Option.none => s
  | some next =>
    if prev = some next then s
    else
      let s1 := { s with _index := index }
      if s1.parent = Parent.none then s1
      else
        let fw := if s1.parent = Parent.withWidget then s1.ui.focus else Option.none
        let s2 :=
          match prev with
          | some p =>
            let t := clearFocus s1 p
            if t._mode = StackingMode.StackOne then hideWidget t p else t
          | Option.none => s1
        let s3 := showWidget (raise s2 next) next
        retargetFocus tk s3 fw prev next

/-- Method `QcStackLayout::setCurrentWidget`; `indexOf` is the toolkit's search for
the first item holding the widget, and the warning is not modelled. -/
def setCurrentWidget (tk : Toolkit) (s : Stack) (w : Nat) : Stack :=
  if w ∈ s._list then setCurrentIndex tk s (s._list.indexOf w) else s

/-- Method `QcStackLayout::invalidate` -/
def invalidate (s : Stack) : Stack :=
  if s.parent = Parent.withWidget ∧ s._gotParent = false then
    let s1 := { s with _gotParent := true }
    if s1._list.length = 0 then s1
    else
      let cw := currentWidget s1
      let s2 :=
        match s1._mode with
        | StackingMode.StackOne =>
          match cw with
          | some c => s1._list.foldl (fun t w => setVisible t w (w == c)) s1
          | Option.none => s1
        | StackingMode.StackAll =>
          s1._list.foldl (fun t w => setVisible t w true) s1
      match cw with
      | some c => s2._list.foldl (fun t w => if w ≠ c then lower t w else t) s2
      | Option.none => s2
  else s

/-- The adjustment of the requested index in `insertWidget` (lines 64-66),
for a list of `n` items. -/
def clampIndex (n : Nat) (index : Int) : Int :=
  let index1 := min index (n : Int)
  if index1 < 0 then (n : Int) else index1

/-- Method `QcStackLayout::insertWidget`: the index returned and the new state. -/
def insertWidget (tk : Toolkit) (s : Stack) (index : Int) (w : Nat) : Int × Stack :=
  let s0 := addChildWidget s w
  let index2 := clampIndex s0._list.length index
  let s1 := { s0 with _list := insertAt s0._list index2.toNat w }
  let s2 := invalidate s1
  if s2._index < 0 then
    (index2, setCurrentIndex tk s2 index2)
  else
    let s3 := if index2 ≤ s2._index then { s2 with _index := s2._index + 1 } else s2
    let s4 := if s3._mode = StackingMode.StackOne then hideWidget s3 w else s3
    (index2, lower s4 w)

/-- Method `QcStackLayout::addWidget` -/
def addWidget (tk : Toolkit) (s : Stack) (w : Nat) : Int × Stack :=
  insertWidget tk s s._list.length w

/-- Method `QcStackLayout::takeAt`: the widget of the item returned (none for the
null result) and the new state. -/
def takeAt (tk : Toolkit) (s : Stack) (index : Int) : Option Nat × Stack :=
  if index < 0 ∨ index ≥ s._list.length then (Option.none, s)
  else
    match s._list[index.toNat]? with
    | Option.none => (Option.none, s)
    | some item =>
      let s1 := { s with _list := s._list.eraseIdx index.toNat }
      let s2 :=
        if index = s1._index then
          let t := { s1 with _index := -1 }
          if t._list.length > 0 then
            let newIndex := if index = (t._list.length : Int) then index - 1 else index
            setCurrentIndex tk t newIndex
          else t
        else if index < s1._index then { s1 with _index := s1._index - 1 }
        else s1
      (some item, hideWidget s2 item)

/-- One child's contribution to `sizeHint` (lines 214-218). -/
def childSizeHint (tk : Toolkit) (w : Nat) : QSize :=
  let ws := tk.sizeHint w
  let ws1 := if (tk.sizePolicy w).horizontalPolicy.isIgnored then { ws with width := 0 } else ws
  if (tk.sizePolicy w).verticalPolicy.isIgnored then { ws1 with height := 0 } else ws1

/-- Method `QcStackLayout::sizeHint` -/
def sizeHint (tk : Toolkit) (s : Stack) : QSize :=
  s._list.foldl (fun acc w => acc.expandedTo (childSizeHint tk w)) ⟨0, 0⟩

/-- The static function `smartMinSize`. -/
def smartMinSize (sizeHint minSizeHint minSize maxSize : QSize) (sizePolicy : QSizePolicy) :
    QSize :=
  let s0 : QSize := ⟨0, 0⟩
  let s1 : QSize :=
    if sizePolicy.horizontalPolicy.isIgnored = false then
      if sizePolicy.horizontalPolicy.hasShrinkFlag then { s0 with width := minSizeHint.width }
      else { s0 with width := max sizeHint.width minSizeHint.width }
    else s0
  let s2 : QSize :=
    if sizePolicy.verticalPolicy.isIgnored = false then
      if sizePolicy.verticalPolicy.hasShrinkFlag then { s1 with height := minSizeHint.height }
      else { s1 with height := max sizeHint.height minSizeHint.height }
    else s1
  let s3 := s2.boundedTo maxSize
  let s4 := if minSize.width > 0 then { s3 with width := minSize.width } else s3
  let s5 := if minSize.height > 0 then { s4 with height := minSize.height } else s4
  s5.expandedTo ⟨0, 0⟩

/-- Method `QcStackLayout::minimumSize` -/
def minimumSize (tk : Toolkit) (s : Stack) : QSize :=
  s._list.foldl
    (fun acc w => acc.expandedTo
      (smartMinSize (tk.sizeHint w) (tk.minimumSizeHint w) (tk.minimumSize w)
        (tk.maximumSize w) (tk.sizePolicy w)))
    ⟨0, 0⟩

/-- Method `QcStackLayout::setGeometry` -/
def setGeometry (s : Stack) (rect : QRect) : Stack :=
  match s._mode with
  | StackingMode.StackOne =>
    match currentWidget s with
    | some w => setWidgetGeometry s w rect
    | Option.none => s
  | StackingMode.StackAll =>
    s._list.foldl (fun t w => setWidgetGeometry t w rect) s

/-- The loop of `setStackingMode` for `StackOne` (lines 305-307), run over the
items from position `i` on. -/
def showOnly (idx : Int) : Int → List Nat → Stack → Stack
  | _, [], s => s
  | i, w :: rest, s => showOnly idx (i + 1) rest (setVisible s w (i == idx))

/-- Method `QcStackLayout::setStackingMode` -/
def setStackingMode (s : Stack) (stackingMode : StackingMode) : Stack :=
  if s._mode = stackingMode then s
  else
    let s1 := { s with _mode := stackingMode }
    if s1.parent = Parent.none then s1
    else if s1._list.length = 0 then s1
    else
      match s1._mode with
      | StackingMode.StackOne =>
        let idx := currentIndex s1
        if idx ≥ 0 then showOnly idx 0 s1._list s1 else s1
      | StackingMode.StackAll =>
        let geometry :=
          match currentWidget s1 with
          | some w => s1.ui.geometry w
          | Option.none => QRect.null
        s1._list.foldl
          (fun t w =>
            let t1 := if geometry.isNull = false then setWidgetGeometry t w geometry else t
            setVisible t1 w true)
          s1

/-- An entry of the `VariantList` given to the constructor: not an object
proxy at all, a proxy of an object that is not a widget, or a proxy of a
widget. -/
inductive Variant where
  | other
  | proxyOfObject
  | proxyOfWidget (w : Nat)
deriving DecidableEq, Repr

/-- The loop of `QcStackLayout::QcStackLayout(const VariantList &)`. -/
def populate (tk : Toolkit) : List Variant → Stack → Stack
  | [], s => s
  | Variant.other :: _, s => s
  | Variant.proxyOfObject :: rest, s => populate tk rest s
  | Variant.proxyOfWidget w :: rest, s => populate tk rest (addWidget tk s w).2

/-- The constructor `QcStackLayout::QcStackLayout(const VariantList &)`. -/
def newFromList (tk : Toolkit) (ui : Widgets) (items : List Variant) : Stack :=
  populate tk items (new ui)

/-! ## Sequences of calls -/

/-- A call on the layout, or the toolkit giving the layout another parent. -/
inductive Op where
  | insertWidget (index : Int) (w : Nat)
  | takeAt (index : Int)
  | setCurrentIndex (index : Int)
  | setStackingMode (mode : StackingMode)
  | setGeometry (rect : QRect)
  | invalidate
  | setParent (p : Parent)

/-- The state after one call. -/
def step (tk : Toolkit) (s : Stack) : Op → Stack
  | Op.insertWidget index w => (insertWidget tk s index w).2
  | Op.takeAt index => (takeAt tk s index).2
  | Op.setCurrentIndex index => setCurrentIndex tk s index
  | Op.setStackingMode mode => setStackingMode s mode
  | Op.setGeometry rect => setGeometry s rect
  | Op.invalidate => invalidate s
  | Op.setParent p => { s with parent := p }

/-- The state after a sequence of calls, first call first. -/
def run (tk : Toolkit) (s : Stack) (ops : List Op) : Stack :=
  ops.foldl (step tk) s

/-- States reachable from a newly constructed empty stack. -/
def Reachable (tk : Toolkit) (s : Stack) : Prop :=
  ∃ (ui : Widgets) (ops : List Op), s = run tk (new ui) ops

/-- Whether a call is one of the layout's own operations. -/
def Op.isCall : Op → Bool
  | Op.setParent _ => false
  | _ => true

/-- A stack of the three widgets 10, 20, 30 (A, B, C) with the given current
index, mode and parent, over the given widget state. -/
def abc (index : Int) (mode : StackingMode) (parent : Parent) (ui : Widgets) : Stack :=
  { _list := [10, 20, 30], _index := index, _mode := mode, _gotParent := false,
    parent := parent, ui := ui }

/-- The part of the state that belongs to the layout object itself. -/
def core (s : Stack) : List Nat × Int × StackingMode × Bool × Parent :=
  (s._list, s._index, s._mode, s._gotParent, s.parent)

/-- One child's contribution to `minimumSize` (lines 262-264). -/
def childMinimumSize (tk : Toolkit) (w : Nat) : QSize :=
  smartMinSize (tk.sizeHint w) (tk.minimumSizeHint w) (tk.minimumSize w)
    (tk.maximumSize w) (tk.sizePolicy w)

/-- The size that `smartMinSize` starts from in one dimension (lines 230-243):
zero for the policy `Ignored`, the minimum-size hint for a policy with the
shrink flag, and otherwise the larger of the two hints. -/
def policyBase (policy : Policy) (hint minHint : Int) : Int :=
  if policy.isIgnored then 0
  else if policy.hasShrinkFlag then minHint
  else max hint minHint

/-- A toolkit in which widget 10 has hint (100, 40), minimum hint (20, 10),
explicit minimum (30, 0) and maximum (50, 25), and widget 20 has hint and
minimum hint (60, 70); every other widget is as in the plain toolkit. -/
def sizedToolkit : Toolkit :=
  { sizeHint := fun w => if w = 10 then ⟨100, 40⟩ else if w = 20 then ⟨60, 70⟩ else ⟨-1, -1⟩,
    minimumSizeHint :=
      fun w => if w = 10 then ⟨20, 10⟩ else if w = 20 then ⟨60, 70⟩ else ⟨-1, -1⟩,
    minimumSize := fun w => if w = 10 then ⟨30, 0⟩ else ⟨0, 0⟩,
    maximumSize := fun w => if w = 10 then ⟨50, 25⟩ else ⟨16777215, 16777215⟩,
    sizePolicy := fun _ => ⟨⟨false, false⟩, ⟨false, false⟩⟩,
    isAncestorOf := fun _ _ => false, focusWidget := fun _ => Option.none,
    focusChain := fun _ => [], tabFocusable := fun _ _ => false }

/-- The widget an entry of the constructor's list converts to, if any. -/
def Variant.toWidget : Variant → Option Nat
  | Variant.proxyOfWidget w => some w
  | _ => Option.none

/-- The children after construction as the specification words it: the
widgets of the entries that precede the first entry not convertible to a
widget, in list order. -/
def specPopulated (items : List Variant) : List Nat :=
  (items.takeWhile (fun v => (Variant.toWidget v).isSome)).filterMap Variant.toWidget

/-- The widgets among the entries that precede the first entry that is not an
object proxy, in list order. -/
def widgetsBeforeNonProxy (items : List Variant) : List Nat :=
  (items.takeWhile (fun v => decide (v ≠ Variant.other))).filterMap Variant.toWidget

/-- A stack has a current child exactly when it has a child: the index is in
range and is not negative when the child list is not empty. -/
def CurrentIffNonEmpty (s : Stack) : Prop :=
  (-1 ≤ s._index ∧ s._index < s._list.length) ∧ (s._list ≠ [] → 0 ≤ s._index)

/-- The maximum of a list of integers; an empty list has none. -/
def maxOver : List Int → Option Int
  | [] => Option.none
  | x :: xs =>
    match maxOver xs with
    | Option.none => some x
    | some m => some (max x m)

/-- The size hint as the specification words it: the componentwise maximum,
over every child, of the child's size hint after the policy override. -/
def specSizeHint (tk : Toolkit) (s : Stack) : Option Int × Option Int :=
  (maxOver (s._list.map (fun w => (childSizeHint tk w).width)),
   maxOver (s._list.map (fun w => (childSizeHint tk w).height)))

/-- A stack holding the single widget 10, current, with no parent. -/
def single (ui : Widgets) : Stack :=
  { _list := [10], _index := 0, _mode := StackingMode.StackOne, _gotParent := false,
    parent := Parent.none, ui := ui }

/-- Widget state in which every widget is hidden and only widget 10 has a
geometry that is not the null rectangle. -/
def onlyFirstPlaced : Widgets :=
  { visible := fun _ => false,
    geometry := fun x => if x = 10 then ⟨0, 0, 99, 99⟩ else QRect.null,
    zorder := [], focus := Option.none }

/-- The current index is -1 or a position of the child list. -/
def IndexInRange (s : Stack) : Prop :=
  -1 ≤ s._index ∧ s._index < s._list.length

/-- Every registered child that is visible is the current child. -/
def VisibleIsCurrent (s : Stack) : Prop :=
  ∀ w ∈ s._list, s.ui.visible w = true → currentWidget s = some w

/-- The invariant of a stack that has had the parent `p` since before its
first child: the index is in range and is -1 only for an empty stack, the
latch is set once a child is registered under a parent widget, and in
ShowOne mode every visible registered child is the current child. -/
def Settled (p : Parent) (s : Stack) : Prop :=
  s.parent = p ∧ IndexInRange s ∧ (s._list ≠ [] → 0 ≤ s._index) ∧
  (p = Parent.withWidget → s._list ≠ [] → s._gotParent = true) ∧
  (s._mode = StackingMode.StackOne → VisibleIsCurrent s)

/-- A toolkit in which every widget has an invalid size hint, no size limits,
a policy that is neither ignored nor shrinking, and no focus relations. -/
def plainToolkit : Toolkit :=
  { sizeHint := fun _ => ⟨-1, -1⟩, minimumSizeHint := fun _ => ⟨-1, -1⟩,
    minimumSize := fun _ => ⟨0, 0⟩, maximumSize := fun _ => ⟨16777215, 16777215⟩,
    sizePolicy := fun _ => ⟨⟨false, false⟩, ⟨false, false⟩⟩,
    isAncestorOf := fun _ _ => false, focusWidget := fun _ => Option.none,
    focusChain := fun _ => [], tabFocusable := fun _ _ => false }

/-- Widget state in which every widget is hidden, has the null geometry, and
nothing holds focus. -/
def allHidden : Widgets :=
  { visible := fun _ => false, geometry := fun _ => QRect.null, zorder := [],
    focus := Option.none }

/-- Widget state in which every widget is shown. -/
def allShown : Widgets :=
  { visible := fun _ => true, geometry := fun _ => QRect.null, zorder := [],
    focus := Option.none }

/-! ## Frame lemmas for the toolkit calls -/

section Frame

variable (s : Stack) (w : Nat)

@[simp] theorem setVisible_list (b : Bool) : (setVisible s w b)._list = s._list := rfl
@[simp] theorem setVisible_index (b : Bool) : (setVisible s w b)._index = s._index := rfl
@[simp] theorem setVisible_mode (b : Bool) : (setVisible s w b)._mode = s._mode := rfl
@[simp] theorem setVisible_gotParent (b : Bool) :
    (setVisible s w b)._gotParent = s._gotParent := rfl
@[simp] theorem setVisible_parent (b : Bool) : (setVisible s w b).parent = s.parent := rfl
@[simp] theorem hideWidget_list : (hideWidget s w)._list = s._list := rfl
@[simp] theorem hideWidget_index : (hideWidget s w)._index = s._index := rfl
@[simp] theorem hideWidget_mode : (hideWidget s w)._mode = s._mode := rfl
@[simp] theorem hideWidget_gotParent : (hideWidget s w)._gotParent = s._gotParent := rfl
@[simp] theorem hideWidget_parent : (hideWidget s w).parent = s.parent := rfl
@[simp] theorem showWidget_list : (showWidget s w)._list = s._list := rfl
@[simp] theorem showWidget_index : (showWidget s w)._index = s._index := rfl
@[simp] theorem showWidget_mode : (showWidget s w)._mode = s._mode := rfl
@[simp] theorem showWidget_gotParent : (showWidget s w)._gotParent = s._gotParent := rfl
@[simp] theorem showWidget_parent : (showWidget s w).parent = s.parent := rfl
@[simp] theorem setWidgetGeometry_list (r : QRect) :
    (setWidgetGeometry s w r)._list = s._list := rfl
@[simp] theorem setWidgetGeometry_index (r : QRect) :
    (setWidgetGeometry s w r)._index = s._index := rfl
@[simp] theorem setWidgetGeometry_mode (r : QRect) :
    (setWidgetGeometry s w r)._mode = s._mode := rfl
@[simp] theorem setWidgetGeometry_gotParent (r : QRect) :
    (setWidgetGeometry s w r)._gotParent = s._gotParent := rfl
@[simp] theorem setWidgetGeometry_parent (r : QRect) :
    (setWidgetGeometry s w r).parent = s.parent := rfl
@[simp] theorem raise_list : (raise s w)._list = s._list := rfl
@[simp] theorem raise_index : (raise s w)._index = s._index := rfl
@[simp] theorem raise_mode : (raise s w)._mode = s._mode := rfl
@[simp] theorem raise_gotParent : (raise s w)._gotParent = s._gotParent := rfl
@[simp] theorem raise_parent : (raise s w).parent = s.parent := rfl
@[simp] theorem lower_list : (lower s w)._list = s._list := rfl
@[simp] theorem lower_index : (lower s w)._index = s._index := rfl
@[simp] theorem lower_mode : (lower s w)._mode = s._mode := rfl
@[simp] theorem lower_gotParent : (lower s w)._gotParent = s._gotParent := rfl
@[simp] theorem lower_parent : (lower s w).parent = s.parent := rfl
@[simp] theorem clearFocus_list : (clearFocus s w)._list = s._list := rfl
@[simp] theorem clearFocus_index : (clearFocus s w)._index = s._index := rfl
@[simp] theorem clearFocus_mode : (clearFocus s w)._mode = s._mode := rfl
@[simp] theorem clearFocus_gotParent : (clearFocus s w)._gotParent = s._gotParent := rfl
@[simp] theorem clearFocus_parent : (clearFocus s w).parent = s.parent := rfl
@[simp] theorem setFocus_list : (setFocus s w)._list = s._list := rfl
@[simp] theorem setFocus_index : (setFocus s w)._index = s._index := rfl
@[simp] theorem setFocus_mode : (setFocus s w)._mode = s._mode := rfl
@[simp] theorem setFocus_gotParent : (setFocus s w)._gotParent = s._gotParent := rfl
@[simp] theorem setFocus_parent : (setFocus s w).parent = s.parent := rfl

end Frame

theorem core_foldl {α : Type} (f : Stack → α → Stack)
    (h : ∀ t a, core (f t a) = core t) (l : List α) (s : Stack) :
    core (l.foldl f s) = core s := by
  induction l generalizing s with
  | nil => rfl
  | cons a rest ih => simp only [List.foldl_cons]; rw [ih, h]

theorem core_retargetFocus (tk : Toolkit) (s : Stack) (fw prev : Option Nat) (next : Nat) :
    core (retargetFocus tk s fw prev next) = core s := by
  unfold retargetFocus
  split
  · split
    · split
      · split
        · rfl
        · split <;> rfl
      · rfl
    · rfl
  · rfl

/-! ## Basic facts about `widget`, `currentWidget` and `setCurrentIndex` -/

theorem widget_eq_none_iff (s : Stack) (i : Int) :
    widget s i = Option.none ↔ (i < 0 ∨ i ≥ s._list.length) := by
  unfold widget
  split
  · simp_all
  · rename_i h
    simp only [not_or, not_lt, ge_iff_le, not_le] at h
    have h1 : i.toNat < s._list.length := by omega
    simp [List.getElem?_eq_getElem h1]
    omega

theorem widget_eq_some_iff (s : Stack) (i : Int) (w : Nat) :
    widget s i = some w ↔ (0 ≤ i ∧ i < s._list.length ∧ s._list[i.toNat]? = some w) := by
  unfold widget
  split
  · rename_i h
    constructor
    · intro h1; cases h1
    · rintro ⟨h1, h2, _⟩; omega
  · rename_i h
    simp only [not_or, not_lt, ge_iff_le, not_le] at h
    constructor
    · intro h1; exact ⟨h.1, h.2, h1⟩
    · rintro ⟨_, _, h3⟩; exact h3

theorem currentWidget_eq_widget (s : Stack) (h : s._index < s._list.length) :
    currentWidget s = widget s s._index := by
  unfold currentWidget widget
  by_cases h0 : s._index ≥ 0
  · have : ¬ (s._index < 0 ∨ s._index ≥ s._list.length) := by omega
    simp [h0, this]
  · have : (s._index < 0 ∨ s._index ≥ s._list.length) := by omega
    simp [h0, this]

theorem setCurrentIndex_noop_of_invalid (tk : Toolkit) (s : Stack) (i : Int)
    (h : widget s i = Option.none) : setCurrentIndex tk s i = s := by
  unfold setCurrentIndex
  simp [h]

theorem setCurrentIndex_noop_of_current (tk : Toolkit) (s : Stack) (i : Int)
    (h : widget s i = currentWidget s) : setCurrentIndex tk s i = s := by
  unfold setCurrentIndex
  cases hw : widget s i with
  | none => rfl
  | some next => simp [← h, hw]

theorem core_setCurrentIndex_of_change (tk : Toolkit) (s : Stack) (i : Int) (next : Nat)
    (hw : widget s i = some next) (hne : currentWidget s ≠ some next) :
    core (setCurrentIndex tk s i) = (s._list, i, s._mode, s._gotParent, s.parent) := by
  unfold setCurrentIndex
  simp only [hw, hne, if_false]
  split
  · rfl
  · rw [core_retargetFocus]
    cases hp : currentWidget s with
    | none => rfl
    | some p =>
      simp only [clearFocus_mode]
      split <;> rfl

theorem setCurrentIndex_cases (tk : Toolkit) (s : Stack) (i : Int) :
    setCurrentIndex tk s i = s ∨
    (0 ≤ i ∧ i < s._list.length ∧
      core (setCurrentIndex tk s i) = (s._list, i, s._mode, s._gotParent, s.parent)) := by
  cases hw : widget s i with
  | none => exact Or.inl (setCurrentIndex_noop_of_invalid tk s i hw)
  | some next =>
    by_cases hc : currentWidget s = some next
    · exact Or.inl (setCurrentIndex_noop_of_current tk s i (by rw [hw, hc]))
    · have := (widget_eq_some_iff s i next).1 hw
      exact Or.inr ⟨this.1, this.2.1, core_setCurrentIndex_of_change tk s i next hw hc⟩

theorem core_eq_iff (s t : Stack) :
    core s = core t ↔ (s._list = t._list ∧ s._index = t._index ∧ s._mode = t._mode ∧
      s._gotParent = t._gotParent ∧ s.parent = t.parent) := by
  simp [core]

theorem core_invalidate (s : Stack) :
    core (invalidate s) = (s._list, s._index, s._mode, s._gotParent || decide (s.parent = Parent.withWidget), s.parent) := by
  unfold invalidate
  split
  · rename_i h
    have hcore1 : core { s with _gotParent := true } =
        (s._list, s._index, s._mode, s._gotParent || decide (s.parent = Parent.withWidget), s.parent) := by
      simp [core, h.1]
    simp only []
    split
    · exact hcore1
    · rw [← hcore1]
      cases hcw : currentWidget { s with _gotParent := true } with
      | none =>
        simp only []
        cases hm : s._mode with
        | StackOne => rfl
        | StackAll =>
          simp only []
          apply core_foldl; intro _ _; rfl
      | some c =>
        simp only []
        rw [core_foldl _ (fun t a => by by_cases h : a = c <;> simp [h, core])]
        cases hm : s._mode with
        | StackOne =>
          simp only []
          apply core_foldl; intro _ _; rfl
        | StackAll =>
          simp only []
          apply core_foldl; intro _ _; rfl
  · rename_i h
    simp only [core, Prod.mk.injEq, true_and]
    cases hg : s._gotParent <;> simp_all

/-! ## Lists -/

theorem clampIndex_bounds (n : Nat) (i : Int) :
    0 ≤ clampIndex n i ∧ clampIndex n i ≤ n := by
  unfold clampIndex
  simp only []
  split <;> omega

theorem clampIndex_of_valid (n : Nat) (i : Int) (h0 : 0 ≤ i) (h1 : i ≤ n) :
    clampIndex n i = i := by
  unfold clampIndex
  simp only []
  split <;> omega

theorem length_insertAt (l : List Nat) (i v : Nat) (h : i ≤ l.length) :
    (insertAt l i v).length = l.length + 1 := by
  simp [insertAt]; omega

theorem getElem?_insertAt (l : List Nat) (i v j : Nat) (h : i ≤ l.length) :
    (insertAt l i v)[j]? =
      if j < i then l[j]? else if j = i then some v else l[j - 1]? := by
  unfold insertAt
  rw [List.getElem?_append]
  have hlen : (List.take i l).length = i := by simp; omega
  rw [hlen]
  by_cases h1 : j < i
  · simp [h1, List.getElem?_take]
  · simp only [h1, if_false]
    by_cases h2 : j = i
    · simp [h2]
    · simp only [h2, if_false]
      obtain ⟨k, hk⟩ : ∃ k, j - i = k + 1 := ⟨j - i - 1, by omega⟩
      rw [hk, List.getElem?_cons_succ, List.getElem?_drop]
      congr 1; omega

theorem mem_insertAt (l : List Nat) (i v x : Nat) :
    x ∈ insertAt l i v ↔ (x = v ∨ x ∈ l) := by
  unfold insertAt
  rw [List.mem_append, List.mem_cons]
  constructor
  · rintro (h | h | h)
    · exact Or.inr (List.mem_of_mem_take h)
    · exact Or.inl h
    · exact Or.inr (List.mem_of_mem_drop h)
  · rintro (h | h)
    · exact Or.inr (Or.inl h)
    · rw [← List.take_append_drop i l, List.mem_append] at h
      rcases h with h | h
      · exact Or.inl h
      · exact Or.inr (Or.inr h)

/-! ## What `insertWidget` and `takeAt` do to the layout's own fields -/

theorem insertWidget_fst (tk : Toolkit) (s : Stack) (i : Int) (w : Nat) :
    (insertWidget tk s i w).1 = clampIndex s._list.length i := by
  unfold insertWidget
  simp only [addChildWidget]
  split <;> rfl

theorem core_insertWidget (tk : Toolkit) (s : Stack) (i : Int) (w : Nat) :
    core (insertWidget tk s i w).2 =
      (insertAt s._list (clampIndex s._list.length i).toNat w,
       (if s._index < 0 then clampIndex s._list.length i
        else if clampIndex s._list.length i ≤ s._index then s._index + 1 else s._index),
       s._mode, s._gotParent || decide (s.parent = Parent.withWidget), s.parent) := by
  have hb := clampIndex_bounds s._list.length i
  unfold insertWidget
  simp only [addChildWidget]
  set p := clampIndex s._list.length i with hp
  set s1 : Stack := { s with _list := insertAt s._list p.toNat w } with hs1
  have hc := core_invalidate s1
  simp only [core, Prod.mk.injEq] at hc
  obtain ⟨hl, hi, hm, hg, hpar⟩ := hc
  rw [hi]
  by_cases hneg : s._index < 0
  · simp only [hneg, if_true]
    have hlen : (invalidate s1)._list.length = s._list.length + 1 := by
      rw [hl, length_insertAt]; omega
    have hw : widget (invalidate s1) p = some w := by
      rw [widget_eq_some_iff]
      refine ⟨hb.1, by rw [hlen]; push_cast; omega, ?_⟩
      rw [hl, getElem?_insertAt _ _ _ _ (by omega)]
      simp
    have hcur : currentWidget (invalidate s1) ≠ some w := by
      unfold currentWidget
      rw [hi]
      simp [hneg]
    rw [core_setCurrentIndex_of_change tk _ p w hw hcur, hl, hm, hg, hpar]
  · simp only [hneg, if_false]
    by_cases hle : p ≤ s._index
    · simp only [hle, if_true, core, Prod.mk.injEq, lower_list, lower_index, lower_mode,
        lower_gotParent, lower_parent]
      refine ⟨?_, ?_, ?_, ?_, ?_⟩ <;> split <;> simp [hl, hi, hm, hg, hpar]
    · simp only [hle, if_false, core, Prod.mk.injEq, lower_list, lower_index, lower_mode,
        lower_gotParent, lower_parent]
      refine ⟨?_, ?_, ?_, ?_, ?_⟩ <;> split <;> simp [hl, hi, hm, hg, hpar]

theorem takeAt_of_invalid (tk : Toolkit) (s : Stack) (i : Int)
    (h : i < 0 ∨ i ≥ s._list.length) : takeAt tk s i = (Option.none, s) := by
  unfold takeAt
  simp [h]

theorem widget_of_valid (s : Stack) (i : Int) (h0 : 0 ≤ i) (h1 : i < s._list.length) :
    ∃ w, widget s i = some w ∧ s._list[i.toNat]? = some w := by
  have h2 : i.toNat < s._list.length := by omega
  refine ⟨s._list[i.toNat], ?_, List.getElem?_eq_getElem h2⟩
  rw [widget_eq_some_iff]
  exact ⟨h0, h1, List.getElem?_eq_getElem h2⟩

theorem takeAt_of_valid (tk : Toolkit) (s : Stack) (i : Int)
    (h0 : 0 ≤ i) (h1 : i < s._list.length) :
    (takeAt tk s i).1 = s._list[i.toNat]? ∧
    core (takeAt tk s i).2 =
      (s._list.eraseIdx i.toNat,
       (if i = s._index then
          (if (s._list.length : Int) - 1 > 0 then
            (if i = (s._list.length : Int) - 1 then i - 1 else i)
           else -1)
        else if i < s._index then s._index - 1 else s._index),
       s._mode, s._gotParent, s.parent) := by
  obtain ⟨item, _, hitem⟩ := widget_of_valid s i h0 h1
  have hnot : ¬ (i < 0 ∨ i ≥ s._list.length) := by omega
  have hlen : (s._list.eraseIdx i.toNat).length = s._list.length - 1 := by
    rw [List.length_eraseIdx]; simp; omega
  unfold takeAt
  simp only [hnot, if_false, hitem, hideWidget, true_and]
  simp only [core, setVisible_list, setVisible_index, setVisible_mode, setVisible_gotParent,
    setVisible_parent]
  by_cases hi : i = s._index
  · simp only [hi, if_true]
    by_cases hpos : (s._list.length : Int) - 1 > 0
    · have hpos2 : (s._list.eraseIdx s._index.toNat).length > 0 := by
        rw [← hi, hlen]; omega
      simp only [hpos, hpos2, if_true]
      set t : Stack := { s with _list := s._list.eraseIdx s._index.toNat, _index := -1 } with ht
      set newIndex : Int :=
        (if s._index = ((s._list.eraseIdx s._index.toNat).length : Int) then s._index - 1
         else s._index) with hn
      have hlen2 : (t._list.length : Int) = (s._list.length : Int) - 1 := by
        show (((s._list.eraseIdx s._index.toNat).length : Nat) : Int) = _
        rw [← hi, hlen]; omega
      have hnew : newIndex = if s._index = (s._list.length : Int) - 1 then s._index - 1
          else s._index := by
        rw [hn]
        have : (((s._list.eraseIdx s._index.toNat).length : Nat) : Int)
            = (s._list.length : Int) - 1 := hlen2
        rw [this]
      have hvalid : 0 ≤ newIndex ∧ newIndex < t._list.length := by
        rw [hnew, hlen2]; split <;> omega
      obtain ⟨nw, hnw, _⟩ := widget_of_valid t newIndex hvalid.1 hvalid.2
      have hcur : currentWidget t ≠ some nw := by
        simp [currentWidget, ht]
      have hc := core_setCurrentIndex_of_change tk t newIndex nw hnw hcur
      simp only [core, Prod.mk.injEq] at hc
      obtain ⟨hl, hx, hm, hg, hpar⟩ := hc
      rw [hl, hx, hm, hg, hpar, hnew]
    · have hpos2 : ¬ (s._list.eraseIdx s._index.toNat).length > 0 := by
        rw [← hi, hlen]; omega
      simp only [hpos, hpos2, if_false]
  · simp only [hi, if_false]
    split <;> rfl

theorem core_showOnly (idx : Int) (l : List Nat) (i : Int) (s : Stack) :
    core (showOnly idx i l s) = core s := by
  induction l generalizing i s with
  | nil => rfl
  | cons w rest ih => simp only [showOnly]; rw [ih]; rfl

theorem core_setStackingMode (s : Stack) (m : StackingMode) :
    core (setStackingMode s m) = (s._list, s._index, m, s._gotParent, s.parent) := by
  unfold setStackingMode
  split
  · rename_i h; simp [core, h]
  · simp only []
    split
    · rfl
    · split
      · rfl
      · cases m with
        | StackOne =>
          simp only [currentIndex]
          split
          · rw [core_showOnly]; rfl
          · rfl
        | StackAll =>
          simp only []
          rw [core_foldl]
          · rfl
          · intro t a; split <;> rfl

theorem core_setGeometry (s : Stack) (r : QRect) : core (setGeometry s r) = core s := by
  unfold setGeometry
  split
  · split <;> rfl
  · apply core_foldl; intro _ _; rfl

/-! ## The index invariant -/

theorem indexInRange_of_core (s t : Stack) (h : core t = core s) (hs : IndexInRange s) :
    IndexInRange t := by
  rw [core_eq_iff] at h
  unfold IndexInRange
  rw [h.1, h.2.1]
  exact hs

theorem indexInRange_step (tk : Toolkit) (s : Stack) (op : Op) (hs : IndexInRange s) :
    IndexInRange (step tk s op) := by
  unfold IndexInRange at hs
  cases op with
  | insertWidget i w =>
    have h := core_insertWidget tk s i w
    have hb := clampIndex_bounds s._list.length i
    simp only [core, Prod.mk.injEq] at h
    simp only [step, IndexInRange]
    rw [h.1, h.2.1, length_insertAt _ _ _ (by omega)]
    split
    · omega
    · split <;> (push_cast; omega)
  | takeAt i =>
    simp only [step]
    by_cases hv : i < 0 ∨ i ≥ s._list.length
    · rw [takeAt_of_invalid tk s i hv]; exact hs
    · have h := (takeAt_of_valid tk s i (by omega) (by omega)).2
      simp only [core, Prod.mk.injEq] at h
      simp only [IndexInRange]
      rw [h.1, h.2.1, List.length_eraseIdx]
      have : i.toNat < s._list.length := by omega
      simp only [this, if_true]
      split
      · split
        · split <;> omega
        · omega
      · split <;> omega
  | setCurrentIndex i =>
    simp only [step]
    rcases setCurrentIndex_cases tk s i with h | ⟨h0, h1, h⟩
    · rw [h]; exact hs
    · simp only [core, Prod.mk.injEq] at h
      simp only [IndexInRange]
      rw [h.1, h.2.1]; omega
  | setStackingMode m =>
    have h := core_setStackingMode s m
    simp only [core, Prod.mk.injEq] at h
    simp only [step, IndexInRange]
    rw [h.1, h.2.1]; exact hs
  | setGeometry r =>
    exact indexInRange_of_core s _ (core_setGeometry s r) hs
  | invalidate =>
    have h := core_invalidate s
    simp only [core, Prod.mk.injEq] at h
    simp only [step, IndexInRange]
    rw [h.1, h.2.1]; exact hs
  | setParent p => exact hs

theorem indexInRange_run (tk : Toolkit) (ops : List Op) (s : Stack) (hs : IndexInRange s) :
    IndexInRange (run tk s ops) := by
  induction ops generalizing s with
  | nil => exact hs
  | cons op rest ih => exact ih _ (indexInRange_step tk s op hs)

theorem indexInRange_new (ui : Widgets) : IndexInRange (new ui) := by
  simp [IndexInRange, new]

/-- C1: in every state reachable from a newly constructed empty stack by any
sequence of insertWidget, takeAt, setCurrentIndex, setStackingMode,
setGeometry and invalidate calls, with the parent changing arbitrarily in
between, the current index is -1 or a valid position, `-1 <= currentIndex()
< count()`; and when it is not -1, currentWidget() is the widget stored at
that position of the child list. -/
theorem C1_currentIndex_in_range (tk : Toolkit) (ui : Widgets) (ops : List Op) :
    -1 ≤ currentIndex (run tk (new ui) ops) ∧
    currentIndex (run tk (new ui) ops) < count (run tk (new ui) ops) ∧
    (currentIndex (run tk (new ui) ops) ≠ -1 →
      ∃ w, (run tk (new ui) ops)._list[(currentIndex (run tk (new ui) ops)).toNat]? = some w ∧
        currentWidget (run tk (new ui) ops) = some w) := by
  have h := indexInRange_run tk ops (new ui) (indexInRange_new ui)
  unfold IndexInRange at h
  refine ⟨h.1, h.2, ?_⟩
  intro hne
  simp only [currentIndex] at hne ⊢
  obtain ⟨w, hw, hl⟩ := widget_of_valid (run tk (new ui) ops) _ (by omega) h.2
  exact ⟨w, hl, by rw [currentWidget_eq_widget _ h.2]; exact hw⟩

/-! ## Removing the current child -/

theorem getElem?_eraseIdx_int (l : List Nat) (i j : Int) (hi : 0 ≤ i) (hj : 0 ≤ j) :
    (l.eraseIdx i.toNat)[j.toNat]? = if j < i then l[j.toNat]? else l[(j + 1).toNat]? := by
  rw [List.getElem?_eraseIdx]
  have e : (j + 1).toNat = j.toNat + 1 := by omega
  rw [e]
  by_cases h : j < i
  · have : j.toNat < i.toNat := by omega
    simp [h, this]
  · have : ¬ j.toNat < i.toNat := by omega
    simp [h, this]

/-- C2: for a stack whose current index c is valid, takeAt(c) returns the
entry that was at position c and removes it; if it was the only entry the
current index becomes -1; otherwise the current index is valid again and is
c, with the former successor current, when an entry followed the removed
one, and c-1, with the new last entry current, when the removed entry was
the last one. -/
theorem C2_takeAt_current (tk : Toolkit) (s : Stack) (c : Int)
    (hc : currentIndex s = c) (h0 : 0 ≤ c) (h1 : c < count s) :
    (∃ w, widget s c = some w ∧ (takeAt tk s c).1 = some w) ∧
    count (takeAt tk s c).2 = count s - 1 ∧
    (count s = 1 → currentIndex (takeAt tk s c).2 = -1) ∧
    (count s > 1 →
      0 ≤ currentIndex (takeAt tk s c).2 ∧
      currentIndex (takeAt tk s c).2 < count (takeAt tk s c).2 ∧
      (c + 1 < count s →
        currentIndex (takeAt tk s c).2 = c ∧
        currentWidget (takeAt tk s c).2 = widget s (c + 1)) ∧
      (c + 1 = count s →
        currentIndex (takeAt tk s c).2 = c - 1 ∧
        currentWidget (takeAt tk s c).2 = widget s (c - 1))) := by
  simp only [currentIndex, count] at *
  obtain ⟨hfst, hcore⟩ := takeAt_of_valid tk s c h0 h1
  simp only [core, Prod.mk.injEq] at hcore
  obtain ⟨hl, hi, -⟩ := hcore
  obtain ⟨w, hw, hlw⟩ := widget_of_valid s c h0 h1
  have hlen : ((takeAt tk s c).2._list.length : Int) = (s._list.length : Int) - 1 := by
    rw [hl, List.length_eraseIdx]
    have : c.toNat < s._list.length := by omega
    simp only [this, if_true]; omega
  simp only [hc, if_true] at hi
  refine ⟨⟨w, hw, by rw [hfst, hlw]⟩, hlen, ?_, ?_⟩
  · intro h; rw [hi]; simp [h]
  · intro h
    have hpos : (s._list.length : Int) - 1 > 0 := by omega
    simp only [hpos, if_true] at hi
    refine ⟨by rw [hi]; split <;> omega, by rw [hi, hlen]; split <;> omega, ?_, ?_⟩
    · intro hnext
      have hne : ¬ c = (s._list.length : Int) - 1 := by omega
      simp only [hne, if_false] at hi
      refine ⟨hi, ?_⟩
      rw [currentWidget_eq_widget _ (by rw [hi, hlen]; omega), hi]
      unfold widget
      have c1 : ¬ (c < 0 ∨ c ≥ ((takeAt tk s c).2._list.length : Int)) := by
        rw [hlen]; omega
      have c2 : ¬ (c + 1 < 0 ∨ c + 1 ≥ (s._list.length : Int)) := by omega
      simp only [c1, c2, if_false]
      rw [hl, getElem?_eraseIdx_int _ _ _ h0 h0]
      simp
    · intro hlast
      have he : c = (s._list.length : Int) - 1 := by omega
      simp only [← he, if_true] at hi
      refine ⟨hi, ?_⟩
      rw [currentWidget_eq_widget _ (by rw [hi, hlen]; omega), hi]
      unfold widget
      have c1 : ¬ (c - 1 < 0 ∨ c - 1 ≥ ((takeAt tk s c).2._list.length : Int)) := by
        rw [hlen]; omega
      have c2 : ¬ (c - 1 < 0 ∨ c - 1 ≥ (s._list.length : Int)) := by omega
      simp only [c1, c2, if_false]
      rw [hl, getElem?_eraseIdx_int _ _ _ h0 (by omega)]
      simp

/-- C2 at the example of the specification: children A, B, C (10, 20, 30)
with A current; takeAt(0) returns A and leaves currentIndex() = 0 and
currentWidget() = B. -/
theorem C2_takeAt_current_witness :
    (takeAt plainToolkit (abc 0 StackingMode.StackOne Parent.withWidget allHidden) 0).1 = some 10 ∧
    currentIndex (takeAt plainToolkit (abc 0 StackingMode.StackOne Parent.withWidget allHidden) 0).2
      = 0 ∧
    currentWidget (takeAt plainToolkit (abc 0 StackingMode.StackOne Parent.withWidget allHidden) 0).2
      = some 20 ∧
    widget (abc 0 StackingMode.StackOne Parent.withWidget allHidden) (0 + 1) = some 20 := by
  have h := C2_takeAt_current plainToolkit
    (abc 0 StackingMode.StackOne Parent.withWidget allHidden) 0 rfl (by decide) (by decide)
  obtain ⟨⟨w, hw, hfst⟩, -, -, hmany⟩ := h
  have hw2 : widget (abc 0 StackingMode.StackOne Parent.withWidget allHidden) 0 = some 10 := by
    decide
  have hnext : widget (abc 0 StackingMode.StackOne Parent.withWidget allHidden) (0 + 1)
      = some 20 := by decide
  obtain ⟨-, -, hsucc, -⟩ := hmany (by decide)
  obtain ⟨hidx, hcur⟩ := hsucc (by decide)
  rw [hw2] at hw
  exact ⟨by rw [hfst, ← hw], hidx, by rw [hcur, hnext], hnext⟩

/-! ## Inserting -/

/-- C3: for a stack whose current index is -1 or valid, a widget w and a
valid insert position 0 <= i <= count(), insertWidget(i, w) returns i, puts
w at position i, increases count() by exactly one and leaves the current
index at a position of the list; if there was no current child before, the
inserted child becomes current. -/
theorem C3_insertWidget_valid (tk : Toolkit) (s : Stack) (w : Nat) (i : Int)
    (hs : currentIndex s = -1 ∨ (0 ≤ currentIndex s ∧ currentIndex s < count s))
    (h0 : 0 ≤ i) (h1 : i ≤ count s) :
    (insertWidget tk s i w).1 = i ∧
    widget (insertWidget tk s i w).2 i = some w ∧
    count (insertWidget tk s i w).2 = count s + 1 ∧
    (0 ≤ currentIndex (insertWidget tk s i w).2 ∧
      currentIndex (insertWidget tk s i w).2 < count (insertWidget tk s i w).2) ∧
    (currentIndex s = -1 →
      currentIndex (insertWidget tk s i w).2 = i ∧
      currentWidget (insertWidget tk s i w).2 = some w) := by
  simp only [currentIndex, count] at *
  have hcl := clampIndex_of_valid s._list.length i h0 h1
  have hcore := core_insertWidget tk s i w
  rw [hcl] at hcore
  simp only [core, Prod.mk.injEq] at hcore
  obtain ⟨hl, hi, -⟩ := hcore
  have hlen : ((insertWidget tk s i w).2._list.length : Int) = (s._list.length : Int) + 1 := by
    rw [hl, length_insertAt _ _ _ (by omega)]; push_cast; rfl
  have hwid : widget (insertWidget tk s i w).2 i = some w := by
    rw [widget_eq_some_iff]
    refine ⟨h0, by rw [hlen]; omega, ?_⟩
    rw [hl, getElem?_insertAt _ _ _ _ (by omega)]
    simp
  refine ⟨by rw [insertWidget_fst, hcl], hwid, hlen, ?_, ?_⟩
  · rw [hi, hlen]
    split
    · omega
    · split <;> omega
  · intro hneg
    have hi2 : (insertWidget tk s i w).2._index = i := by rw [hi]; simp [hneg]
    refine ⟨hi2, ?_⟩
    rw [currentWidget_eq_widget _ (by rw [hi2, hlen]; omega), hi2]
    exact hwid

/-- C3 at a concrete input: inserting widget 40 at position 1 of A, B, C with
no current child. -/
theorem C3_insertWidget_valid_witness :
    (insertWidget plainToolkit (abc (-1) StackingMode.StackOne Parent.none allHidden) 1 40).1 = 1 ∧
    currentWidget
      (insertWidget plainToolkit (abc (-1) StackingMode.StackOne Parent.none allHidden) 1 40).2
      = some 40 :=
  have h := C3_insertWidget_valid plainToolkit
    (abc (-1) StackingMode.StackOne Parent.none allHidden) 40 1 (Or.inl rfl)
    (by decide) (by decide)
  ⟨h.1, (h.2.2.2.2 rfl).2⟩

/-- C4 as stated fails: on a stack of three children insertWidget(-1, w)
inserts at and returns position 3, while max(0, min(-1, 3)) is 0. -/
theorem C4_counterexample :
    (insertWidget plainToolkit (abc 0 StackingMode.StackOne Parent.none allHidden) (-1) 40).1 = 3 ∧
    (insertWidget plainToolkit (abc 0 StackingMode.StackOne Parent.none allHidden) (-1) 40).2._list
      = [10, 20, 30, 40] ∧
    (insertWidget plainToolkit (abc 0 StackingMode.StackOne Parent.none allHidden) (-1) 40).1 ≠
      max (0 : Int) (min (-1) (count (abc 0 StackingMode.StackOne Parent.none allHidden))) := by
  refine ⟨by decide, ?_, by decide⟩
  have h := core_insertWidget plainToolkit
    (abc 0 StackingMode.StackOne Parent.none allHidden) (-1) 40
  simp only [core, Prod.mk.injEq] at h
  rw [h.1]
  decide

/-- C4, amended: for every integer index, with n = count() before the call,
insertWidget(index, w) inserts w at and returns index itself when
0 <= index <= n, and n (the widget is appended) when index < 0 or index > n;
the children before that position keep their positions and the others move
up by one. For index >= 0 this is max(0, min(index, n)). -/
theorem C4_insertWidget_position (tk : Toolkit) (s : Stack) (index : Int) (w : Nat) :
    (insertWidget tk s index w).1 =
      (if 0 ≤ index ∧ index ≤ count s then index else count s) ∧
    (insertWidget tk s index w).2._list =
      s._list.take (insertWidget tk s index w).1.toNat ++
        w :: s._list.drop (insertWidget tk s index w).1.toNat ∧
    widget (insertWidget tk s index w).2 (insertWidget tk s index w).1 = some w ∧
    (0 ≤ index → (insertWidget tk s index w).1 = max 0 (min index (count s))) := by
  have hb := clampIndex_bounds s._list.length index
  have hcore := core_insertWidget tk s index w
  simp only [core, Prod.mk.injEq] at hcore
  have hfst := insertWidget_fst tk s index w
  have hval : clampIndex s._list.length index =
      if 0 ≤ index ∧ index ≤ count s then index else count s := by
    unfold clampIndex count
    simp only []
    split <;> split <;> omega
  refine ⟨by rw [hfst, hval], by rw [hcore.1, hfst]; rfl, ?_, ?_⟩
  · rw [widget_eq_some_iff, hfst, hcore.1, length_insertAt _ _ _ (by omega)]
    refine ⟨hb.1, by push_cast; omega, ?_⟩
    rw [getElem?_insertAt _ _ _ _ (by omega)]
    simp
  · intro h
    rw [hfst, hval]
    unfold count
    split <;> omega

/-! ## Out-of-range removal and `setCurrentIndex` -/

/-- C5: for every stack and every index with index < 0 or index >= count(),
takeAt(index) returns the null result and leaves the whole state unchanged. -/
theorem C5_takeAt_out_of_range (tk : Toolkit) (s : Stack) (index : Int)
    (h : index < 0 ∨ index ≥ count s) :
    (takeAt tk s index).1 = Option.none ∧ (takeAt tk s index).2 = s := by
  rw [takeAt_of_invalid tk s index h]
  exact ⟨rfl, rfl⟩

/-- C5 at takeAt(5) and takeAt(-1) on a stack of three children. -/
theorem C5_takeAt_out_of_range_witness :
    ((takeAt plainToolkit (abc 1 StackingMode.StackOne Parent.withWidget allShown) 5).1
        = Option.none ∧
      (takeAt plainToolkit (abc 1 StackingMode.StackOne Parent.withWidget allShown) 5).2
        = abc 1 StackingMode.StackOne Parent.withWidget allShown) ∧
    ((takeAt plainToolkit (abc 1 StackingMode.StackOne Parent.withWidget allShown) (-1)).1
        = Option.none ∧
      (takeAt plainToolkit (abc 1 StackingMode.StackOne Parent.withWidget allShown) (-1)).2
        = abc 1 StackingMode.StackOne Parent.withWidget allShown) :=
  ⟨C5_takeAt_out_of_range plainToolkit _ 5 (Or.inr (by decide)),
   C5_takeAt_out_of_range plainToolkit _ (-1) (Or.inl (by decide))⟩

/-- C6: setCurrentIndex(i) leaves the entire state (child list, current
index, mode, latch, parent, and every widget's visibility, geometry,
stacking order and the focus holder) unchanged when i is out of range or
widget(i) is already the current widget; and calling it twice with the same
i gives exactly the state that calling it once gives. -/
theorem C6_setCurrentIndex_idempotent (tk : Toolkit) (s : Stack) (i : Int) :
    ((i < 0 ∨ i ≥ count s ∨ widget s i = currentWidget s) → setCurrentIndex tk s i = s) ∧
    setCurrentIndex tk (setCurrentIndex tk s i) i = setCurrentIndex tk s i := by
  constructor
  · rintro (h | h | h)
    · exact setCurrentIndex_noop_of_invalid tk s i ((widget_eq_none_iff s i).2 (Or.inl h))
    · exact setCurrentIndex_noop_of_invalid tk s i ((widget_eq_none_iff s i).2 (Or.inr h))
    · exact setCurrentIndex_noop_of_current tk s i h
  · rcases setCurrentIndex_cases tk s i with h | ⟨h0, h1, h⟩
    · rw [h, h]
    · simp only [core, Prod.mk.injEq] at h
      apply setCurrentIndex_noop_of_current
      rw [currentWidget_eq_widget _ (by rw [h.1, h.2.1]; exact h1), h.2.1]

/-- C6 at a call that does switch: A, B, C with A current and a parent
widget; the second setCurrentIndex(1) changes nothing more. -/
theorem C6_setCurrentIndex_idempotent_witness :
    setCurrentIndex plainToolkit
        (setCurrentIndex plainToolkit
          (abc 0 StackingMode.StackOne Parent.withWidget allShown) 1) 1 =
      setCurrentIndex plainToolkit (abc 0 StackingMode.StackOne Parent.withWidget allShown) 1 ∧
    currentIndex
      (setCurrentIndex plainToolkit (abc 0 StackingMode.StackOne Parent.withWidget allShown) 1)
      = 1 :=
  ⟨(C6_setCurrentIndex_idempotent plainToolkit
      (abc 0 StackingMode.StackOne Parent.withWidget allShown) 1).2, by decide⟩

/-! ## Size negotiation -/

/-- C7 as stated fails: with an explicit minimum of 10 and a maximum of 5 the
smart minimum is 10 in each dimension, above the maximum. -/
theorem C7_counterexample :
    (smartMinSize ⟨0, 0⟩ ⟨0, 0⟩ ⟨10, 10⟩ ⟨5, 5⟩ ⟨⟨false, false⟩, ⟨false, false⟩⟩).width = 10 ∧
    (smartMinSize ⟨0, 0⟩ ⟨0, 0⟩ ⟨10, 10⟩ ⟨5, 5⟩ ⟨⟨false, false⟩, ⟨false, false⟩⟩).height = 10 ∧
    ¬ ((smartMinSize ⟨0, 0⟩ ⟨0, 0⟩ ⟨10, 10⟩ ⟨5, 5⟩ ⟨⟨false, false⟩, ⟨false, false⟩⟩).width
        ≤ (⟨5, 5⟩ : QSize).width) := by
  decide

/-- C7, amended: for every child, in each dimension independently, the smart
minimum is at least the explicit minimum size and at least zero; it is at
most the maximum size exactly when, in that dimension, the maximum is not
negative and the explicit minimum does not exceed the maximum. -/
theorem C7_smartMinSize_bounds (sizeHint minSizeHint minSize maxSize : QSize)
    (sizePolicy : QSizePolicy) :
    minSize.width ≤ (smartMinSize sizeHint minSizeHint minSize maxSize sizePolicy).width ∧
    minSize.height ≤ (smartMinSize sizeHint minSizeHint minSize maxSize sizePolicy).height ∧
    0 ≤ (smartMinSize sizeHint minSizeHint minSize maxSize sizePolicy).width ∧
    0 ≤ (smartMinSize sizeHint minSizeHint minSize maxSize sizePolicy).height ∧
    ((smartMinSize sizeHint minSizeHint minSize maxSize sizePolicy).width ≤ maxSize.width ↔
      (0 ≤ maxSize.width ∧ minSize.width ≤ maxSize.width)) ∧
    ((smartMinSize sizeHint minSizeHint minSize maxSize sizePolicy).height ≤ maxSize.height ↔
      (0 ≤ maxSize.height ∧ minSize.height ≤ maxSize.height)) := by
  obtain ⟨⟨hi, hs⟩, ⟨vi, vs⟩⟩ := sizePolicy
  unfold smartMinSize QSize.boundedTo QSize.expandedTo
  cases hi <;> cases hs <;> cases vi <;> cases vs <;>
    simp only [Bool.false_eq_true, if_true, if_false] <;>
    (by_cases hw : minSize.width > 0 <;> by_cases hh : minSize.height > 0 <;>
      simp only [hw, hh, if_true, if_false] <;>
      refine ⟨?_, ?_, ?_, ?_, ?_, ?_⟩ <;> omega)

/-- C7, amended, at a child with hint 100, minimum hint 20, explicit minimum
30 and maximum 50: the smart minimum is 30 wide, within the maximum. -/
theorem C7_smartMinSize_bounds_witness :
    (smartMinSize ⟨100, 100⟩ ⟨20, 20⟩ ⟨30, 30⟩ ⟨50, 50⟩ ⟨⟨false, false⟩, ⟨false, true⟩⟩).width
      ≤ 50 :=
  (C7_smartMinSize_bounds ⟨100, 100⟩ ⟨20, 20⟩ ⟨30, 30⟩ ⟨50, 50⟩
    ⟨⟨false, false⟩, ⟨false, true⟩⟩).2.2.2.2.1.2 ⟨by decide, by decide⟩

theorem maxOver_cons_max (a b : Int) (l : List Int) :
    maxOver (max a b :: l) = maxOver (a :: b :: l) := by
  simp only [maxOver]
  cases maxOver l with
  | none => rfl
  | some m => simp only [max_assoc]

theorem maxOver_spec (l : List Int) (m : Int) (h : maxOver l = some m) :
    (∀ x ∈ l, x ≤ m) ∧ m ∈ l := by
  induction l generalizing m with
  | nil => simp [maxOver] at h
  | cons a rest ih =>
    simp only [maxOver] at h
    cases hr : maxOver rest with
    | none =>
      rw [hr] at h
      cases rest with
      | nil =>
        simp only [Option.some.injEq] at h
        subst h
        simp
      | cons b r =>
        simp only [maxOver] at hr
        cases hx : maxOver r <;> rw [hx] at hr <;> simp at hr
    | some k =>
      rw [hr] at h
      simp only [Option.some.injEq] at h
      obtain ⟨hle, hmem⟩ := ih k hr
      subst h
      constructor
      · intro x hx
        rcases List.mem_cons.1 hx with rfl | hx
        · exact le_max_left _ _
        · exact le_trans (hle x hx) (le_max_right _ _)
      · rcases max_cases a k with ⟨h1, _⟩ | ⟨h1, _⟩
        · rw [h1]; exact List.mem_cons_self _ _
        · rw [h1]; exact List.mem_cons_of_mem _ hmem

theorem foldl_expandedTo_width (f : Nat → QSize) (l : List Nat) (a : QSize) :
    some (l.foldl (fun acc w => acc.expandedTo (f w)) a).width =
      maxOver (a.width :: l.map (fun w => (f w).width)) := by
  induction l generalizing a with
  | nil => rfl
  | cons x rest ih =>
    simp only [List.foldl_cons, List.map_cons]
    rw [ih, ← maxOver_cons_max]
    rfl

theorem foldl_expandedTo_height (f : Nat → QSize) (l : List Nat) (a : QSize) :
    some (l.foldl (fun acc w => acc.expandedTo (f w)) a).height =
      maxOver (a.height :: l.map (fun w => (f w).height)) := by
  induction l generalizing a with
  | nil => rfl
  | cons x rest ih =>
    simp only [List.foldl_cons, List.map_cons]
    rw [ih, ← maxOver_cons_max]
    rfl

/-- C8 as stated fails: for a single child whose size hint is the invalid
size (-1, -1), with no ignored policy, the maximum over the children is -1
in each dimension, while sizeHint() is (0, 0). -/
theorem C8_counterexample :
    sizeHint plainToolkit (single allHidden) = ⟨0, 0⟩ ∧
    specSizeHint plainToolkit (single allHidden) = (some (-1), some (-1)) ∧
    (some (sizeHint plainToolkit (single allHidden)).width,
      some (sizeHint plainToolkit (single allHidden)).height)
      ≠ specSizeHint plainToolkit (single allHidden) := by
  decide

/-- C8, amended: for every list of children, sizeHint() is the componentwise
maximum, width and height independently, of zero and every child's size
hint after the policy override (a dimension whose sizing policy is Ignored
counts as zero for that child): each dimension is at least zero and at
least every child's overridden hint, and is zero or attained by a child. -/
theorem C8_sizeHint_max (tk : Toolkit) (s : Stack) :
    some (sizeHint tk s).width =
      maxOver (0 :: s._list.map (fun w => (childSizeHint tk w).width)) ∧
    some (sizeHint tk s).height =
      maxOver (0 :: s._list.map (fun w => (childSizeHint tk w).height)) ∧
    (0 ≤ (sizeHint tk s).width ∧ 0 ≤ (sizeHint tk s).height) ∧
    (∀ w ∈ s._list, (childSizeHint tk w).width ≤ (sizeHint tk s).width ∧
      (childSizeHint tk w).height ≤ (sizeHint tk s).height) ∧
    ((sizeHint tk s).width = 0 ∨ ∃ w ∈ s._list, (sizeHint tk s).width = (childSizeHint tk w).width) ∧
    ((sizeHint tk s).height = 0 ∨
      ∃ w ∈ s._list, (sizeHint tk s).height = (childSizeHint tk w).height) ∧
    (∀ w, (childSizeHint tk w).width =
        (if (tk.sizePolicy w).horizontalPolicy.isIgnored then 0 else (tk.sizeHint w).width) ∧
      (childSizeHint tk w).height =
        (if (tk.sizePolicy w).verticalPolicy.isIgnored then 0 else (tk.sizeHint w).height)) := by
  have hw : some (sizeHint tk s).width =
      maxOver (0 :: s._list.map (fun w => (childSizeHint tk w).width)) :=
    foldl_expandedTo_width (childSizeHint tk) s._list ⟨0, 0⟩
  have hh : some (sizeHint tk s).height =
      maxOver (0 :: s._list.map (fun w => (childSizeHint tk w).height)) :=
    foldl_expandedTo_height (childSizeHint tk) s._list ⟨0, 0⟩
  obtain ⟨hw1, hw2⟩ := maxOver_spec _ _ hw.symm
  obtain ⟨hh1, hh2⟩ := maxOver_spec _ _ hh.symm
  refine ⟨hw, hh, ⟨hw1 0 (List.mem_cons_self _ _), hh1 0 (List.mem_cons_self _ _)⟩, ?_, ?_, ?_, ?_⟩
  · intro w hmem
    exact ⟨hw1 _ (List.mem_cons_of_mem _ (List.mem_map.2 ⟨w, hmem, rfl⟩)),
      hh1 _ (List.mem_cons_of_mem _ (List.mem_map.2 ⟨w, hmem, rfl⟩))⟩
  · rcases List.mem_cons.1 hw2 with h | h
    · exact Or.inl h
    · obtain ⟨w, hmem, he⟩ := List.mem_map.1 h
      exact Or.inr ⟨w, hmem, he.symm⟩
  · rcases List.mem_cons.1 hh2 with h | h
    · exact Or.inl h
    · obtain ⟨w, hmem, he⟩ := List.mem_map.1 h
      exact Or.inr ⟨w, hmem, he.symm⟩
  · intro w
    unfold childSizeHint
    simp only []
    constructor <;> split <;> split <;> rfl

/-! ## Switching to `StackAll` -/

theorem foldl_overlay (g : QRect) (l : List Nat) (u : Stack) :
    (∀ x, (l.foldl (fun t w =>
        setVisible (if g.isNull = false then setWidgetGeometry t w g else t) w true) u).ui.visible x
      = if x ∈ l then true else u.ui.visible x) ∧
    (∀ x, (l.foldl (fun t w =>
        setVisible (if g.isNull = false then setWidgetGeometry t w g else t) w true) u).ui.geometry x
      = if g.isNull = false ∧ x ∈ l then g else u.ui.geometry x) := by
  induction l generalizing u with
  | nil => simp
  | cons a rest ih =>
    simp only [List.foldl_cons]
    obtain ⟨h1, h2⟩ := ih (setVisible (if g.isNull = false then setWidgetGeometry u a g else u) a true)
    constructor
    · intro x
      rw [h1]
      by_cases hx : x ∈ rest
      · simp [hx]
      · by_cases hxa : x = a
        · simp [hxa, setVisible]
        · simp only [hx, if_false, List.mem_cons, hxa, or_self]
          cases hg : g.isNull <;> simp [setVisible, setWidgetGeometry, hxa]
    · intro x
      rw [h2]
      cases hg : g.isNull
      · by_cases hx : x ∈ rest
        · simp [hx]
        · by_cases hxa : x = a
          · simp [hxa, setVisible, setWidgetGeometry]
          · simp [hx, hxa, setVisible, setWidgetGeometry]
      · simp [setVisible]

/-- C9 as stated fails, in two ways: (1) A, B, C with B current, all hidden,
in ShowOne mode and without a parent: after setStackingMode(StackAll) no
child is visible; (2) with a parent widget, when B's geometry is the null
rectangle and A's is not: afterwards A still has its own geometry, not B's
prior one. -/
theorem C9_counterexample :
    ((setStackingMode (abc 1 StackingMode.StackOne Parent.none allHidden)
        StackingMode.StackAll).ui.visible 10 = false ∧
      currentWidget (abc 1 StackingMode.StackOne Parent.none allHidden) = some 20) ∧
    ((setStackingMode (abc 1 StackingMode.StackOne Parent.withWidget onlyFirstPlaced)
        StackingMode.StackAll).ui.geometry 10 = ⟨0, 0, 99, 99⟩ ∧
      (abc 1 StackingMode.StackOne Parent.withWidget onlyFirstPlaced).ui.geometry 20
        = ⟨0, 0, -1, -1⟩ ∧
      (setStackingMode (abc 1 StackingMode.StackOne Parent.withWidget onlyFirstPlaced)
        StackingMode.StackAll).ui.geometry 10 ≠
      (abc 1 StackingMode.StackOne Parent.withWidget onlyFirstPlaced).ui.geometry 20) := by
  decide

/-- C9, amended: for every stack in ShowOne mode that has a parent and a
current child, after setStackingMode(StackAll) every registered child is
visible, and, when the geometry the current child had immediately before the
call is not the null rectangle, every registered child has that geometry
(when it is the null rectangle no geometry is changed). The child list and
the current index are unchanged and the mode is StackAll. -/
theorem C9_setStackingMode_all (s : Stack) (c : Nat)
    (hm : stackingMode s = StackingMode.StackOne) (hp : s.parent ≠ Parent.none)
    (hc : currentWidget s = some c) :
    (∀ w ∈ s._list, (setStackingMode s StackingMode.StackAll).ui.visible w = true) ∧
    ((s.ui.geometry c).isNull = false →
      ∀ w ∈ s._list, (setStackingMode s StackingMode.StackAll).ui.geometry w = s.ui.geometry c) ∧
    ((s.ui.geometry c).isNull = true →
      (setStackingMode s StackingMode.StackAll).ui.geometry = s.ui.geometry) ∧
    (setStackingMode s StackingMode.StackAll)._list = s._list ∧
    currentIndex (setStackingMode s StackingMode.StackAll) = currentIndex s ∧
    stackingMode (setStackingMode s StackingMode.StackAll) = StackingMode.StackAll := by
  have hcore := core_setStackingMode s StackingMode.StackAll
  simp only [core, Prod.mk.injEq] at hcore
  simp only [stackingMode, currentIndex] at *
  have hne : s._list.length ≠ 0 := by
    intro h0
    have : s._list = [] := List.length_eq_zero.1 h0
    simp [currentWidget, this] at hc
  have hcur : currentWidget { s with _mode := StackingMode.StackAll } = some c := hc
  have hrun : setStackingMode s StackingMode.StackAll =
      s._list.foldl (fun t w =>
        setVisible (if (s.ui.geometry c).isNull = false then
          setWidgetGeometry t w (s.ui.geometry c) else t) w true)
        { s with _mode := StackingMode.StackAll } := by
    unfold setStackingMode
    simp only [hm, hp, hne, hcur, if_false]
    simp
  obtain ⟨hv, hg⟩ := foldl_overlay (s.ui.geometry c) s._list { s with _mode := StackingMode.StackAll }
  rw [← hrun] at hv hg
  refine ⟨?_, ?_, ?_, hcore.1, hcore.2.1, hcore.2.2.1⟩
  · intro w hw; rw [hv]; simp [hw]
  · intro hnull w hw; rw [hg]; simp [hw, hnull]
  · intro hnull; funext x; rw [hg]; simp [hnull]

/-- C9, amended, at the example of the specification: A, B, C with B
current, a parent widget, and B placed at a rectangle that is not null. -/
theorem C9_setStackingMode_all_witness :
    ((setStackingMode
        (setWidgetGeometry (abc 1 StackingMode.StackOne Parent.withWidget allHidden) 20
          ⟨5, 5, 104, 54⟩) StackingMode.StackAll).ui.visible 10 = true ∧
      (setStackingMode
        (setWidgetGeometry (abc 1 StackingMode.StackOne Parent.withWidget allHidden) 20
          ⟨5, 5, 104, 54⟩) StackingMode.StackAll).ui.geometry 10 = ⟨5, 5, 104, 54⟩) ∧
    ((setStackingMode
        (setWidgetGeometry (abc 1 StackingMode.StackOne Parent.withWidget allHidden) 20
          ⟨5, 5, 104, 54⟩) StackingMode.StackAll).ui.visible 30 = true ∧
      (setStackingMode
        (setWidgetGeometry (abc 1 StackingMode.StackOne Parent.withWidget allHidden) 20
          ⟨5, 5, 104, 54⟩) StackingMode.StackAll).ui.geometry 30 = ⟨5, 5, 104, 54⟩) := by
  have h := C9_setStackingMode_all
    (setWidgetGeometry (abc 1 StackingMode.StackOne Parent.withWidget allHidden) 20
      ⟨5, 5, 104, 54⟩) 20 rfl (by decide) (by decide)
  have hg := h.2.1 (by decide)
  exact ⟨⟨h.1 10 (by decide), (hg 10 (by decide)).trans (by decide)⟩,
    ⟨h.1 30 (by decide), (hg 30 (by decide)).trans (by decide)⟩⟩

/-! ## Visibility in `StackOne` mode -/

theorem visible_retargetFocus (tk : Toolkit) (s : Stack) (fw prev : Option Nat) (next : Nat) :
    (retargetFocus tk s fw prev next).ui.visible = s.ui.visible := by
  unfold retargetFocus
  split
  · split
    · split
      · split
        · rfl
        · split <;> rfl
      · rfl
    · rfl
  · rfl

theorem visible_setCurrentIndex_of_change (tk : Toolkit) (s : Stack) (i : Int) (next : Nat)
    (hw : widget s i = some next) (hne : currentWidget s ≠ some next)
    (hp : s.parent ≠ Parent.none) (x : Nat) :
    (setCurrentIndex tk s i).ui.visible x =
      if x = next then true
      else if s._mode = StackingMode.StackOne ∧ currentWidget s = some x then false
      else s.ui.visible x := by
  unfold setCurrentIndex
  simp only [hw, hne, hp, if_false]
  rw [visible_retargetFocus]
  cases hc : currentWidget s with
  | none =>
    simp [showWidget, setVisible, raise]
  | some q =>
    simp only [clearFocus_mode]
    cases hm : s._mode with
    | StackOne =>
      by_cases hx : x = next
      · simp [hx, showWidget, setVisible]
      · by_cases hq : x = q
        · simp [hx, hq, showWidget, setVisible, raise, hideWidget, clearFocus]
        · have hq2 : ¬ q = x := fun h => hq h.symm
          simp [hx, hq, hq2, showWidget, setVisible, raise, hideWidget, clearFocus]
    | StackAll =>
      by_cases hx : x = next
      · simp [hx, showWidget, setVisible]
      · simp [hx, showWidget, setVisible, raise, clearFocus]

theorem invalidate_of_latched (s : Stack)
    (h : s.parent ≠ Parent.withWidget ∨ s._gotParent = true) : invalidate s = s := by
  unfold invalidate
  have : ¬ (s.parent = Parent.withWidget ∧ s._gotParent = false) := by
    rcases h with h | h
    · exact fun hh => h hh.1
    · intro hh; rw [h] at hh; exact Bool.noConfusion hh.2
  simp [this]

theorem visible_invalidate_of_no_current (s : Stack) (hc : currentWidget s = Option.none)
    (hm : s._mode = StackingMode.StackOne) : (invalidate s).ui.visible = s.ui.visible := by
  unfold invalidate
  split
  · simp only []
    split
    · rfl
    · have hc2 : ∀ m, currentWidget
          { _list := s._list, _index := s._index, _mode := m, _gotParent := true,
            parent := s.parent, ui := s.ui } = Option.none := fun _ => hc
      simp only [hc2, hm]
  · rfl

theorem getElem?_insertAt_shift (l : List Nat) (p c : Int) (w : Nat)
    (hp0 : 0 ≤ p) (hp1 : p ≤ l.length) (hc0 : 0 ≤ c) :
    (insertAt l p.toNat w)[(if p ≤ c then c + 1 else c).toNat]? = l[c.toNat]? := by
  rw [getElem?_insertAt _ _ _ _ (by omega)]
  by_cases h : p ≤ c
  · simp only [h, if_true]
    have h1 : ¬ (c + 1).toNat < p.toNat := by omega
    have h2 : ¬ (c + 1).toNat = p.toNat := by omega
    simp only [h1, h2, if_false]
    congr 1; omega
  · simp only [h, if_false]
    have h1 : c.toNat < p.toNat := by omega
    simp only [h1, if_true]

theorem visible_showOnly (idx : Int) (l : List Nat) (k : Int) (s : Stack) (x : Nat)
    (hx : x ∈ l) (hv : (showOnly idx k l s).ui.visible x = true) :
    ∃ j : Nat, l[j]? = some x ∧ k + j = idx := by
  induction l generalizing k s with
  | nil => cases hx
  | cons a rest ih =>
    simp only [showOnly] at hv
    by_cases hr : x ∈ rest
    · obtain ⟨j, hj, he⟩ := ih (k + 1) _ hr hv
      exact ⟨j + 1, by simpa using hj, by push_cast; omega⟩
    · have hxa : x = a := by
        rcases List.mem_cons.1 hx with h | h
        · exact h
        · exact absurd h hr
      have hfr : ∀ (r : List Nat) (k2 : Int) (u : Stack), x ∉ r →
          (showOnly idx k2 r u).ui.visible x = u.ui.visible x := by
        intro r
        induction r with
        | nil => intro _ _ _; rfl
        | cons b r2 ih2 =>
          intro k2 u hnot
          simp only [showOnly]
          rw [ih2 _ _ (fun h => hnot (List.mem_cons_of_mem _ h))]
          have : x ≠ b := fun h => hnot (h ▸ List.mem_cons_self _ _)
          simp [setVisible, this]
      rw [hfr rest (k + 1) _ hr] at hv
      simp [setVisible, hxa] at hv
      exact ⟨0, by simp [hxa], by simpa using hv⟩

theorem insertWidget_of_current (tk : Toolkit) (s : Stack) (i : Int) (w : Nat)
    (hidx : 0 ≤ s._index) (hl : s.parent ≠ Parent.withWidget ∨ s._gotParent = true) :
    (insertWidget tk s i w).2 =
      lower
        (if s._mode = StackingMode.StackOne then
          hideWidget
            { s with
              _list := insertAt s._list (clampIndex s._list.length i).toNat w,
              _index := if clampIndex s._list.length i ≤ s._index then s._index + 1
                else s._index } w
         else
          { s with
            _list := insertAt s._list (clampIndex s._list.length i).toNat w,
            _index := if clampIndex s._list.length i ≤ s._index then s._index + 1
              else s._index }) w := by
  unfold insertWidget
  simp only [addChildWidget]
  rw [invalidate_of_latched
    { s with _list := insertAt s._list (clampIndex s._list.length i).toNat w } hl]
  have hneg : ¬ s._index < 0 := by omega
  simp only [hneg, if_false]
  by_cases hle : clampIndex s._list.length i ≤ s._index
  · simp only [hle, if_true]
  · simp only [hle, if_false]

theorem insertWidget_of_no_current (tk : Toolkit) (s : Stack) (i : Int) (w : Nat)
    (hidx : s._index < 0) :
    (insertWidget tk s i w).2 =
      setCurrentIndex tk
        (invalidate { s with _list := insertAt s._list (clampIndex s._list.length i).toNat w })
        (clampIndex s._list.length i) := by
  have hc := core_invalidate
    { s with _list := insertAt s._list (clampIndex s._list.length i).toNat w }
  simp only [core, Prod.mk.injEq] at hc
  unfold insertWidget
  simp only [addChildWidget]
  rw [if_pos (by rw [hc.2.1]; exact hidx)]

theorem visible_insertWidget_of_current (tk : Toolkit) (s : Stack) (i : Int) (w : Nat)
    (hidx : 0 ≤ s._index) (hm : s._mode = StackingMode.StackOne)
    (hl : s.parent ≠ Parent.withWidget ∨ s._gotParent = true) (x : Nat) :
    (insertWidget tk s i w).2.ui.visible x = if x = w then false else s.ui.visible x := by
  rw [insertWidget_of_current tk s i w hidx hl]
  simp [hm, lower, hideWidget, setVisible]

theorem visible_insertWidget_of_no_current (tk : Toolkit) (s : Stack) (i : Int) (w : Nat)
    (hidx : s._index < 0) (hm : s._mode = StackingMode.StackOne)
    (hp : s.parent ≠ Parent.none) (x : Nat) :
    (insertWidget tk s i w).2.ui.visible x = if x = w then true else s.ui.visible x := by
  have hb := clampIndex_bounds s._list.length i
  rw [insertWidget_of_no_current tk s i w hidx]
  set p := clampIndex s._list.length i with hpdef
  set s1 : Stack := { s with _list := insertAt s._list p.toNat w } with hs1
  have hc := core_invalidate s1
  simp only [core, Prod.mk.injEq] at hc
  obtain ⟨hl, hi, hmode, -, hpar⟩ := hc
  have hcur1 : currentWidget s1 = Option.none := by
    simp [currentWidget, hs1, hidx]
  have hcur : currentWidget (invalidate s1) = Option.none := by
    unfold currentWidget
    rw [hi]
    simp [hidx]
  have hvis : (invalidate s1).ui.visible = s.ui.visible :=
    visible_invalidate_of_no_current s1 hcur1 hm
  have hw : widget (invalidate s1) p = some w := by
    rw [widget_eq_some_iff]
    refine ⟨hb.1, by rw [hl, length_insertAt _ _ _ (by omega)]; push_cast; omega, ?_⟩
    rw [hl, getElem?_insertAt _ _ _ _ (by omega)]
    simp
  rw [visible_setCurrentIndex_of_change tk _ p w hw (by rw [hcur]; simp)
    (by rw [hpar]; exact hp), hcur, hvis]
  simp

theorem takeAt_of_other (tk : Toolkit) (s : Stack) (i : Int) (item : Nat)
    (h0 : 0 ≤ i) (h1 : i < s._list.length) (hitem : s._list[i.toNat]? = some item)
    (hne : i ≠ s._index) :
    (takeAt tk s i).2 =
      hideWidget
        { s with
          _list := s._list.eraseIdx i.toNat,
          _index := if i < s._index then s._index - 1 else s._index } item := by
  have hnot : ¬ (i < 0 ∨ i ≥ s._list.length) := by omega
  unfold takeAt
  simp only [hnot, if_false, hitem, hne]
  split <;> rfl

theorem takeAt_of_current (tk : Toolkit) (s : Stack) (item : Nat)
    (h0 : 0 ≤ s._index) (h1 : s._index < s._list.length)
    (hitem : s._list[s._index.toNat]? = some item)
    (hmore : (s._list.length : Int) - 1 > 0) :
    (takeAt tk s s._index).2 =
      hideWidget
        (setCurrentIndex tk
          { s with _list := s._list.eraseIdx s._index.toNat, _index := -1 }
          (if s._index = (s._list.length : Int) - 1 then s._index - 1 else s._index)) item := by
  have hnot : ¬ (s._index < 0 ∨ s._index ≥ s._list.length) := by omega
  have hlen : (((s._list.eraseIdx s._index.toNat).length : Nat) : Int)
      = (s._list.length : Int) - 1 := by
    rw [List.length_eraseIdx]
    have : s._index.toNat < s._list.length := by omega
    simp only [this, if_true]; omega
  have hpos2 : (s._list.eraseIdx s._index.toNat).length > 0 := by omega
  unfold takeAt
  simp only [hnot, if_false, hitem, if_true, hpos2, hlen]

theorem visible_takeAt_of_other (tk : Toolkit) (s : Stack) (i : Int) (item : Nat)
    (h0 : 0 ≤ i) (h1 : i < s._list.length) (hitem : s._list[i.toNat]? = some item)
    (hne : i ≠ s._index) (x : Nat) :
    (takeAt tk s i).2.ui.visible x = if x = item then false else s.ui.visible x := by
  rw [takeAt_of_other tk s i item h0 h1 hitem hne]
  simp [hideWidget, setVisible]

theorem visible_takeAt_of_current (tk : Toolkit) (s : Stack) (item : Nat)
    (h0 : 0 ≤ s._index) (h1 : s._index < s._list.length)
    (hitem : s._list[s._index.toNat]? = some item) (hp : s.parent ≠ Parent.none)
    (hmore : (s._list.length : Int) - 1 > 0) (x : Nat) :
    ∃ next, currentWidget (takeAt tk s s._index).2 = some next ∧
      (takeAt tk s s._index).2.ui.visible x =
        if x = item then false else if x = next then true else s.ui.visible x := by
  rw [takeAt_of_current tk s item h0 h1 hitem hmore]
  set t : Stack := { s with _list := s._list.eraseIdx s._index.toNat, _index := -1 } with ht
  set newIndex : Int :=
    (if s._index = (s._list.length : Int) - 1 then s._index - 1 else s._index) with hn
  have hlen2 : (t._list.length : Int) = (s._list.length : Int) - 1 := by
    show (((s._list.eraseIdx s._index.toNat).length : Nat) : Int) = _
    rw [List.length_eraseIdx]
    have : s._index.toNat < s._list.length := by omega
    simp only [this, if_true]; omega
  have hvalid : 0 ≤ newIndex ∧ newIndex < t._list.length := by
    rw [hn, hlen2]
    split <;> omega
  obtain ⟨nw, hnw, hnl⟩ := widget_of_valid t newIndex hvalid.1 hvalid.2
  have hcur : currentWidget t = Option.none := by
    simp [currentWidget, ht]
  have hc := core_setCurrentIndex_of_change tk t newIndex nw hnw (by rw [hcur]; simp)
  simp only [core, Prod.mk.injEq] at hc
  refine ⟨nw, ?_, ?_⟩
  · unfold currentWidget
    simp only [hideWidget_index, hideWidget_list]
    rw [hc.1, hc.2.1]
    have : newIndex ≥ 0 := hvalid.1
    simp only [this, if_true]
    exact hnl
  · have hv := visible_setCurrentIndex_of_change tk t newIndex nw hnw (by rw [hcur]; simp) hp x
    rw [hcur] at hv
    simp only [hideWidget, setVisible]
    by_cases hxi : x = item
    · simp [hxi]
    · simp only [hxi, if_false]
      rw [hv]
      simp

theorem visible_setGeometry (s : Stack) (r : QRect) :
    (setGeometry s r).ui.visible = s.ui.visible := by
  unfold setGeometry
  have hf : ∀ (l : List Nat) (u : Stack),
      (l.foldl (fun t w => setWidgetGeometry t w r) u).ui.visible = u.ui.visible := by
    intro l
    induction l with
    | nil => intro u; rfl
    | cons a rest ih => intro u; simp only [List.foldl_cons]; rw [ih]; rfl
  split
  · split <;> rfl
  · exact hf _ _

theorem setStackingMode_of_same (s : Stack) (m : StackingMode) (h : s._mode = m) :
    setStackingMode s m = s := by
  unfold setStackingMode
  simp [h]

theorem setStackingMode_one (s : Stack) (hm : s._mode ≠ StackingMode.StackOne)
    (hp : s.parent ≠ Parent.none) (hl : s._list ≠ []) (hi : 0 ≤ s._index) :
    setStackingMode s StackingMode.StackOne =
      showOnly s._index 0 s._list { s with _mode := StackingMode.StackOne } := by
  have hlen : s._list.length ≠ 0 := fun h => hl (List.length_eq_zero.1 h)
  unfold setStackingMode
  simp only [hm, hp, hlen, if_false, currentIndex]
  have : s._index ≥ 0 := hi
  simp only [this, if_true]

theorem getElem?_eraseIdx_shift (l : List Nat) (i c : Int) (hi : 0 ≤ i) (hc : 0 ≤ c)
    (hne : i ≠ c) :
    (l.eraseIdx i.toNat)[(if i < c then c - 1 else c).toNat]? = l[c.toNat]? := by
  by_cases h : i < c
  · simp only [h, if_true]
    rw [getElem?_eraseIdx_int _ _ _ hi (by omega)]
    have : ¬ c - 1 < i := by omega
    simp [this]
  · simp only [h, if_false]
    rw [getElem?_eraseIdx_int _ _ _ hi hc]
    have : c < i := by omega
    simp [this]

theorem currentWidget_of_nonneg (s : Stack) (h : 0 ≤ s._index) :
    currentWidget s = s._list[s._index.toNat]? := by
  unfold currentWidget
  have : s._index ≥ 0 := h
  simp [this]

theorem settled_insertWidget (tk : Toolkit) (p : Parent) (s : Stack) (i : Int) (w : Nat)
    (hs : Settled p s) : Settled p (insertWidget tk s i w).2 := by
  obtain ⟨h1, h2, h3, h4, h5⟩ := hs
  have hb := clampIndex_bounds s._list.length i
  have hcore := core_insertWidget tk s i w
  simp only [core, Prod.mk.injEq] at hcore
  obtain ⟨cl, ci, cm, cg, cp⟩ := hcore
  have hr : IndexInRange (insertWidget tk s i w).2 :=
    indexInRange_step tk s (Op.insertWidget i w) h2
  have hidx0 : 0 ≤ (insertWidget tk s i w).2._index := by
    rw [ci]; unfold IndexInRange at h2
    split
    · exact hb.1
    · split <;> omega
  refine ⟨by rw [cp, h1], hr, fun _ => hidx0, ?_, ?_⟩
  · intro hw _
    rw [cg, h1, hw]; simp
  · intro hm x hx hv
    rw [cm] at hm
    rw [cl, mem_insertAt] at hx
    by_cases hneg : s._index < 0
    · have hnil : s._list = [] := by
        by_contra hne
        have := h3 hne
        omega
      have hxw : x = w := by
        rcases hx with h | h
        · exact h
        · rw [hnil] at h; cases h
      rw [currentWidget_of_nonneg _ hidx0, ci, cl, hxw]
      simp only [hneg, if_true]
      rw [getElem?_insertAt _ _ _ _ (by omega)]
      simp
    · have hc0 : 0 ≤ s._index := by omega
      have hne : s._list ≠ [] := by
        intro h
        unfold IndexInRange at h2
        rw [h] at h2
        simp at h2
        omega
      have hl : s.parent ≠ Parent.withWidget ∨ s._gotParent = true := by
        by_cases hpw : p = Parent.withWidget
        · exact Or.inr (h4 hpw hne)
        · exact Or.inl (by rw [h1]; exact hpw)
      rw [visible_insertWidget_of_current tk s i w hc0 hm hl] at hv
      by_cases hxw : x = w
      · simp [hxw] at hv
      · simp only [hxw, if_false] at hv
        have hxl : x ∈ s._list := by
          rcases hx with h | h
          · exact absurd h hxw
          · exact h
        have hcur := h5 hm x hxl hv
        rw [currentWidget_of_nonneg _ hc0] at hcur
        rw [currentWidget_of_nonneg _ hidx0, ci, cl]
        simp only [hneg, if_false]
        rw [getElem?_insertAt_shift _ _ _ _ hb.1 hb.2 hc0]
        exact hcur

theorem settled_takeAt (tk : Toolkit) (p : Parent) (s : Stack) (i : Int)
    (hp : p ≠ Parent.none) (hs : Settled p s) : Settled p (takeAt tk s i).2 := by
  by_cases hv : i < 0 ∨ i ≥ s._list.length
  · rw [takeAt_of_invalid tk s i hv]; exact hs
  obtain ⟨h1, h2, h3, h4, h5⟩ := hs
  have hi0 : 0 ≤ i := by omega
  have hi1 : i < s._list.length := by omega
  obtain ⟨item, -, hitem⟩ := widget_of_valid s i hi0 hi1
  have hne : s._list ≠ [] := by
    intro h; rw [h] at hi1; simp at hi1; omega
  have hc0 : 0 ≤ s._index := h3 hne
  have hcore := (takeAt_of_valid tk s i hi0 hi1).2
  simp only [core, Prod.mk.injEq] at hcore
  obtain ⟨cl, ci, cm, cg, cp⟩ := hcore
  have hr : IndexInRange (takeAt tk s i).2 := indexInRange_step tk s (Op.takeAt i) h2
  have hlen : ((takeAt tk s i).2._list.length : Int) = (s._list.length : Int) - 1 := by
    rw [cl, List.length_eraseIdx]
    have : i.toNat < s._list.length := by omega
    simp only [this, if_true]; omega
  have hidx0 : (takeAt tk s i).2._list ≠ [] → 0 ≤ (takeAt tk s i).2._index := by
    intro hne2
    have hpos : (s._list.length : Int) - 1 > 0 := by
      rw [← hlen]
      have := List.length_pos.2 hne2
      omega
    rw [ci]
    simp only [hpos, if_true]
    split
    · split <;> omega
    · split <;> omega
  refine ⟨by rw [cp, h1], hr, hidx0, ?_, ?_⟩
  · intro hw _
    rw [cg]; exact h4 hw hne
  · intro hm x hx hvis
    rw [cm] at hm
    have hxl : x ∈ s._list := by
      rw [cl] at hx; exact List.mem_of_mem_eraseIdx hx
    by_cases hic : i = s._index
    · by_cases hmore : (s._list.length : Int) - 1 > 0
      · rw [hic] at hitem
        rw [hic] at hvis ⊢
        obtain ⟨next, hcur, hvx⟩ := visible_takeAt_of_current tk s item hc0 h2.2 hitem
          (by rw [h1]; exact hp) hmore x
        rw [hvx] at hvis
        by_cases hxi : x = item
        · simp [hxi] at hvis
        · simp only [hxi, if_false] at hvis
          by_cases hxn : x = next
          · rw [hcur, hxn]
          · simp only [hxn, if_false] at hvis
            have := h5 hm x hxl hvis
            rw [currentWidget_of_nonneg _ hc0, hitem] at this
            exact absurd (Option.some.inj this).symm hxi
      · have : (takeAt tk s i).2._list = [] := by
          apply List.length_eq_zero.1
          omega
        rw [this] at hx; cases hx
    · rw [visible_takeAt_of_other tk s i item hi0 hi1 hitem hic] at hvis
      by_cases hxi : x = item
      · simp [hxi] at hvis
      · simp only [hxi, if_false] at hvis
        have hcur := h5 hm x hxl hvis
        rw [currentWidget_of_nonneg _ hc0] at hcur
        have hne2 : (takeAt tk s i).2._list ≠ [] := List.ne_nil_of_mem hx
        rw [currentWidget_of_nonneg _ (hidx0 hne2), ci, cl]
        simp only [hic, if_false]
        rw [getElem?_eraseIdx_shift _ _ _ hi0 hc0 hic]
        exact hcur

theorem settled_setCurrentIndex (tk : Toolkit) (p : Parent) (s : Stack) (i : Int)
    (hp : p ≠ Parent.none) (hs : Settled p s) : Settled p (setCurrentIndex tk s i) := by
  cases hw : widget s i with
  | none => rw [setCurrentIndex_noop_of_invalid tk s i hw]; exact hs
  | some next =>
    by_cases hc : currentWidget s = some next
    · rw [setCurrentIndex_noop_of_current tk s i (by rw [hw, hc])]; exact hs
    · obtain ⟨h1, h2, h3, h4, h5⟩ := hs
      have hcore := core_setCurrentIndex_of_change tk s i next hw hc
      simp only [core, Prod.mk.injEq] at hcore
      obtain ⟨cl, ci, cm, cg, cp⟩ := hcore
      obtain ⟨hi0, hi1, hil⟩ := (widget_eq_some_iff s i next).1 hw
      refine ⟨by rw [cp, h1], ?_, fun _ => by rw [ci]; exact hi0, ?_, ?_⟩
      · unfold IndexInRange; rw [cl, ci]; omega
      · intro hpw hne; rw [cg]; rw [cl] at hne; exact h4 hpw hne
      · intro hm x hx hvis
        rw [cm] at hm
        rw [cl] at hx
        rw [visible_setCurrentIndex_of_change tk s i next hw hc (by rw [h1]; exact hp)] at hvis
        rw [currentWidget_of_nonneg _ (by rw [ci]; exact hi0), ci, cl, hil]
        by_cases hxn : x = next
        · rw [hxn]
        · simp only [hxn, if_false, hm, true_and] at hvis
          by_cases hcx : currentWidget s = some x
          · simp [hcx] at hvis
          · simp only [hcx, if_false] at hvis
            exact absurd (h5 hm x hx hvis) hcx

theorem settled_setStackingMode (p : Parent) (s : Stack) (m : StackingMode)
    (hp : p ≠ Parent.none) (hs : Settled p s) : Settled p (setStackingMode s m) := by
  by_cases hsame : s._mode = m
  · rw [setStackingMode_of_same s m hsame]; exact hs
  obtain ⟨h1, h2, h3, h4, h5⟩ := hs
  have hcore := core_setStackingMode s m
  simp only [core, Prod.mk.injEq] at hcore
  obtain ⟨cl, ci, cm, cg, cp⟩ := hcore
  refine ⟨by rw [cp, h1], ?_, ?_, ?_, ?_⟩
  · unfold IndexInRange; rw [cl, ci]; exact h2
  · rw [cl, ci]; exact h3
  · rw [cl, cg]; exact h4
  · intro hm x hx hvis
    rw [cm] at hm
    rw [cl] at hx
    have hne : s._list ≠ [] := List.ne_nil_of_mem hx
    have hc0 : 0 ≤ s._index := h3 hne
    have hmode : s._mode ≠ StackingMode.StackOne := by rw [← hm]; exact hsame
    rw [currentWidget_of_nonneg _ (by rw [ci]; exact hc0), ci, cl]
    rw [hm, setStackingMode_one s hmode (by rw [h1]; exact hp) hne hc0] at hvis
    obtain ⟨j, hj, he⟩ := visible_showOnly s._index s._list 0 _ x hx hvis
    have : s._index.toNat = j := by omega
    rw [this]; exact hj

theorem settled_setGeometry (p : Parent) (s : Stack) (r : QRect)
    (hs : Settled p s) : Settled p (setGeometry s r) := by
  obtain ⟨h1, h2, h3, h4, h5⟩ := hs
  have hcore := core_setGeometry s r
  simp only [core, Prod.mk.injEq] at hcore
  obtain ⟨cl, ci, cm, cg, cp⟩ := hcore
  refine ⟨by rw [cp, h1], ?_, ?_, ?_, ?_⟩
  · unfold IndexInRange; rw [cl, ci]; exact h2
  · rw [cl, ci]; exact h3
  · rw [cl, cg]; exact h4
  · intro hm x hx hvis
    rw [cm] at hm
    rw [cl] at hx
    rw [visible_setGeometry] at hvis
    have := h5 hm x hx hvis
    unfold currentWidget at this ⊢
    rw [cl, ci]; exact this

theorem settled_invalidate (p : Parent) (s : Stack)
    (hs : Settled p s) : Settled p (invalidate s) := by
  by_cases hne : s._list = []
  · obtain ⟨h1, h2, h3, h4, h5⟩ := hs
    have hcore := core_invalidate s
    simp only [core, Prod.mk.injEq] at hcore
    obtain ⟨cl, ci, cm, cg, cp⟩ := hcore
    refine ⟨by rw [cp, h1], ?_, ?_, ?_, ?_⟩
    · unfold IndexInRange; rw [cl, ci]; exact h2
    · rw [cl, ci]; exact h3
    · intro _ hn; rw [cl] at hn; exact absurd hne hn
    · intro _ x hx; rw [cl, hne] at hx; cases hx
  · have hl : s.parent ≠ Parent.withWidget ∨ s._gotParent = true := by
      by_cases hpw : p = Parent.withWidget
      · exact Or.inr (hs.2.2.2.1 hpw hne)
      · exact Or.inl (by rw [hs.1]; exact hpw)
    rw [invalidate_of_latched s hl]; exact hs

theorem settled_step (tk : Toolkit) (p : Parent) (s : Stack) (op : Op)
    (hp : p ≠ Parent.none) (hop : op.isCall = true) (hs : Settled p s) :
    Settled p (step tk s op) := by
  cases op with
  | insertWidget i w => exact settled_insertWidget tk p s i w hs
  | takeAt i => exact settled_takeAt tk p s i hp hs
  | setCurrentIndex i => exact settled_setCurrentIndex tk p s i hp hs
  | setStackingMode m => exact settled_setStackingMode p s m hp hs
  | setGeometry r => exact settled_setGeometry p s r hs
  | invalidate => exact settled_invalidate p s hs
  | setParent q => simp [Op.isCall] at hop

theorem settled_run (tk : Toolkit) (p : Parent) (ops : List Op) (s : Stack)
    (hp : p ≠ Parent.none) (hops : ∀ op ∈ ops, op.isCall = true) (hs : Settled p s) :
    Settled p (run tk s ops) := by
  induction ops generalizing s with
  | nil => exact hs
  | cons op rest ih =>
    exact ih (step tk s op) (fun o ho => hops o (List.mem_cons_of_mem _ ho))
      (settled_step tk p s op hp (hops op (List.mem_cons_self _ _)) hs)

theorem settled_new (p : Parent) (ui : Widgets) : Settled p { new ui with parent := p } := by
  refine ⟨rfl, by simp [IndexInRange, new], ?_, ?_, ?_⟩
  · intro h; simp [new] at h
  · intro _ h; simp [new] at h
  · intro _ x hx; simp [new] at hx

/-- C10 as stated fails. (1) A stack that never gets a parent, widget 10
already shown when it is inserted: after insertWidget(0, 10),
insertWidget(1, 20), setCurrentIndex(1) the mode is ShowOne, the last call
was setCurrentIndex, and the registered child 10 is visible although the
current child is 20. (2) All widgets hidden at first, the parent widget
given after two insertions: after the further calls insertWidget(0, 30) and
setCurrentIndex(2) child 10 is visible and the current child 20 is not. -/
theorem C10_counterexample :
    (stackingMode (run plainToolkit (new allShown)
        [Op.insertWidget 0 10, Op.insertWidget 1 20, Op.setCurrentIndex 1])
        = StackingMode.StackOne ∧
      (run plainToolkit (new allShown)
        [Op.insertWidget 0 10, Op.insertWidget 1 20, Op.setCurrentIndex 1])._list = [10, 20] ∧
      (run plainToolkit (new allShown)
        [Op.insertWidget 0 10, Op.insertWidget 1 20, Op.setCurrentIndex 1]).ui.visible 10
        = true ∧
      currentWidget (run plainToolkit (new allShown)
        [Op.insertWidget 0 10, Op.insertWidget 1 20, Op.setCurrentIndex 1]) = some 20) ∧
    (stackingMode (run plainToolkit (new allHidden)
        [Op.insertWidget 0 10, Op.insertWidget 1 20, Op.setCurrentIndex 1,
          Op.setParent Parent.withWidget, Op.insertWidget 0 30, Op.setCurrentIndex 2])
        = StackingMode.StackOne ∧
      (run plainToolkit (new allHidden)
        [Op.insertWidget 0 10, Op.insertWidget 1 20, Op.setCurrentIndex 1,
          Op.setParent Parent.withWidget, Op.insertWidget 0 30, Op.setCurrentIndex 2])._list
        = [30, 10, 20] ∧
      (run plainToolkit (new allHidden)
        [Op.insertWidget 0 10, Op.insertWidget 1 20, Op.setCurrentIndex 1,
          Op.setParent Parent.withWidget, Op.insertWidget 0 30, Op.setCurrentIndex 2]).ui.visible 10
        = true ∧
      (run plainToolkit (new allHidden)
        [Op.insertWidget 0 10, Op.insertWidget 1 20, Op.setCurrentIndex 1,
          Op.setParent Parent.withWidget, Op.insertWidget 0 30, Op.setCurrentIndex 2]).ui.visible 20
        = false ∧
      currentWidget (run plainToolkit (new allHidden)
        [Op.insertWidget 0 10, Op.insertWidget 1 20, Op.setCurrentIndex 1,
          Op.setParent Parent.withWidget, Op.insertWidget 0 30, Op.setCurrentIndex 2])
        = some 20) := by
  decide

/-! ## Removing or inserting beside the current child -/

/-- C11: for a stack with a valid current index c and a valid index i other
than c, takeAt(i) keeps the same child current: the current index becomes
c-1 when i < c and stays c when i > c, and currentWidget() after the call is
the widget that was current before it. -/
theorem C11_takeAt_other_keeps_current (tk : Toolkit) (s : Stack) (c i : Int)
    (hc : currentIndex s = c) (hc0 : 0 ≤ c) (hc1 : c < count s)
    (hi0 : 0 ≤ i) (hi1 : i < count s) (hne : i ≠ c) :
    (i < c → currentIndex (takeAt tk s i).2 = c - 1) ∧
    (c < i → currentIndex (takeAt tk s i).2 = c) ∧
    currentWidget (takeAt tk s i).2 = currentWidget s ∧
    (∃ w, currentWidget s = some w) := by
  simp only [currentIndex, count] at *
  have hcore := (takeAt_of_valid tk s i hi0 hi1).2
  simp only [core, Prod.mk.injEq] at hcore
  obtain ⟨hl, hi, -⟩ := hcore
  rw [hc] at hi
  simp only [hne, if_false] at hi
  have hidx0 : 0 ≤ (takeAt tk s i).2._index := by
    rw [hi]; split <;> omega
  obtain ⟨w, hw, -⟩ := widget_of_valid s c hc0 hc1
  refine ⟨fun h => by rw [hi]; simp [h], fun h => ?_, ?_, ?_⟩
  · rw [hi]
    have : ¬ i < c := by omega
    simp [this]
  · rw [currentWidget_of_nonneg _ hidx0, currentWidget_of_nonneg _ (by rw [hc]; exact hc0),
      hi, hl, hc]
    exact getElem?_eraseIdx_shift _ _ _ hi0 hc0 hne
  · refine ⟨w, ?_⟩
    rw [currentWidget_eq_widget _ (by rw [hc]; exact hc1), hc]
    exact hw

/-- C11 at A, B, C (10, 20, 30) with B current: takeAt(0) leaves B current at
index 0, and takeAt(2) leaves B current at index 1. -/
theorem C11_takeAt_other_keeps_current_witness :
    (currentIndex (takeAt plainToolkit (abc 1 StackingMode.StackOne Parent.withWidget allShown) 0).2
        = 1 - 1 ∧
      currentWidget (takeAt plainToolkit (abc 1 StackingMode.StackOne Parent.withWidget allShown) 0).2
        = some 20) ∧
    (currentIndex (takeAt plainToolkit (abc 1 StackingMode.StackOne Parent.withWidget allShown) 2).2
        = 1 ∧
      currentWidget (takeAt plainToolkit (abc 1 StackingMode.StackOne Parent.withWidget allShown) 2).2
        = some 20) :=
  have h0 := C11_takeAt_other_keeps_current plainToolkit
    (abc 1 StackingMode.StackOne Parent.withWidget allShown) 1 0 rfl (by decide) (by decide)
    (by decide) (by decide) (by decide)
  have h2 := C11_takeAt_other_keeps_current plainToolkit
    (abc 1 StackingMode.StackOne Parent.withWidget allShown) 1 2 rfl (by decide) (by decide)
    (by decide) (by decide) (by decide)
  ⟨⟨h0.1 (by decide), h0.2.2.1.trans (by decide)⟩,
   ⟨h2.2.1 (by decide), h2.2.2.1.trans (by decide)⟩⟩

/-- C13: for a stack that has a current child at a valid index c, a widget w
and any integer index, insertWidget(index, w), inserting at position p,
leaves the current index at c+1 when p <= c and at c when p > c; the current
index is never p, and currentWidget() after the call is the widget that was
current before it. -/
theorem C13_insertWidget_keeps_current (tk : Toolkit) (s : Stack) (c index : Int) (w : Nat)
    (hc : currentIndex s = c) (hc0 : 0 ≤ c) (hc1 : c < count s) :
    ((insertWidget tk s index w).1 ≤ c →
      currentIndex (insertWidget tk s index w).2 = c + 1) ∧
    (c < (insertWidget tk s index w).1 →
      currentIndex (insertWidget tk s index w).2 = c) ∧
    currentIndex (insertWidget tk s index w).2 ≠ (insertWidget tk s index w).1 ∧
    widget (insertWidget tk s index w).2 (insertWidget tk s index w).1 = some w ∧
    currentWidget (insertWidget tk s index w).2 = currentWidget s ∧
    (∃ v, currentWidget s = some v) := by
  simp only [currentIndex, count] at *
  have hb := clampIndex_bounds s._list.length index
  have hfst := insertWidget_fst tk s index w
  have hcore := core_insertWidget tk s index w
  simp only [core, Prod.mk.injEq] at hcore
  obtain ⟨hl, hi, -⟩ := hcore
  have hneg : ¬ s._index < 0 := by omega
  simp only [hneg, if_false] at hi
  rw [hfst]
  have hidx0 : 0 ≤ (insertWidget tk s index w).2._index := by
    rw [hi]; split <;> omega
  obtain ⟨v, hv, -⟩ := widget_of_valid s c hc0 hc1
  refine ⟨fun h => ?_, fun h => ?_, ?_, ?_, ?_, ?_⟩
  · rw [hi, hc]; simp [h]
  · rw [hi, hc]
    have : ¬ clampIndex s._list.length index ≤ c := by omega
    simp [this]
  · rw [hi]; split <;> omega
  · rw [widget_eq_some_iff, hl, length_insertAt _ _ _ (by omega)]
    refine ⟨hb.1, by push_cast; omega, ?_⟩
    rw [getElem?_insertAt _ _ _ _ (by omega)]
    simp
  · rw [currentWidget_of_nonneg _ hidx0, currentWidget_of_nonneg _ (by rw [hc]; exact hc0),
      hi, hl]
    exact getElem?_insertAt_shift _ _ _ _ hb.1 hb.2 (by rw [hc]; exact hc0)
  · refine ⟨v, ?_⟩
    rw [currentWidget_eq_widget _ (by rw [hc]; exact hc1), hc]
    exact hv

/-- C13 at A, B, C (10, 20, 30) with B current: inserting widget 40 at
position 0 moves the current index to 2 and B stays current. -/
theorem C13_insertWidget_keeps_current_witness :
    currentIndex
        (insertWidget plainToolkit (abc 1 StackingMode.StackOne Parent.withWidget allShown) 0 40).2
      = 1 + 1 ∧
    currentWidget
        (insertWidget plainToolkit (abc 1 StackingMode.StackOne Parent.withWidget allShown) 0 40).2
      = some 20 :=
  have h := C13_insertWidget_keeps_current plainToolkit
    (abc 1 StackingMode.StackOne Parent.withWidget allShown) 1 0 40 rfl (by decide) (by decide)
  ⟨h.1 (by decide), h.2.2.2.2.1.trans (by decide)⟩

/-! ## Geometry, minimum size and lookup -/

theorem foldl_setWidgetGeometry (r : QRect) (l : List Nat) (u : Stack) :
    (l.foldl (fun t w => setWidgetGeometry t w r) u).ui.visible = u.ui.visible ∧
    (l.foldl (fun t w => setWidgetGeometry t w r) u).ui.zorder = u.ui.zorder ∧
    (l.foldl (fun t w => setWidgetGeometry t w r) u).ui.focus = u.ui.focus ∧
    (∀ x, (l.foldl (fun t w => setWidgetGeometry t w r) u).ui.geometry x
      = if x ∈ l then r else u.ui.geometry x) := by
  induction l generalizing u with
  | nil => simp
  | cons a rest ih =>
    simp only [List.foldl_cons]
    obtain ⟨h1, h2, h3, h4⟩ := ih (setWidgetGeometry u a r)
    refine ⟨by rw [h1]; rfl, by rw [h2]; rfl, by rw [h3]; rfl, ?_⟩
    intro x
    rw [h4]
    by_cases hx : x ∈ rest
    · simp [hx]
    · by_cases hxa : x = a
      · simp [hxa, setWidgetGeometry]
      · simp [hx, hxa, setWidgetGeometry]

/-- C12: for every stack and rectangle r, setGeometry(r) in ShowOne mode
gives the current child the geometry r and leaves the geometry of every
other widget unchanged (nothing changes when there is no current child); in
ShowAll mode it gives every registered child the geometry r and leaves
other widgets alone. In both modes the child list, the current index, the
mode, the latch, the parent, the visibility of every widget, the stacking
order and the focus holder are unchanged. -/
theorem C12_setGeometry_effect (s : Stack) (r : QRect) :
    (stackingMode s = StackingMode.StackOne →
      ∀ x, (setGeometry s r).ui.geometry x =
        if currentWidget s = some x then r else s.ui.geometry x) ∧
    (stackingMode s = StackingMode.StackOne → currentWidget s = Option.none →
      setGeometry s r = s) ∧
    (stackingMode s = StackingMode.StackAll →
      ∀ x, (setGeometry s r).ui.geometry x = if x ∈ s._list then r else s.ui.geometry x) ∧
    (setGeometry s r)._list = s._list ∧
    currentIndex (setGeometry s r) = currentIndex s ∧
    stackingMode (setGeometry s r) = stackingMode s ∧
    (setGeometry s r)._gotParent = s._gotParent ∧
    (setGeometry s r).parent = s.parent ∧
    (setGeometry s r).ui.visible = s.ui.visible ∧
    (setGeometry s r).ui.zorder = s.ui.zorder ∧
    (setGeometry s r).ui.focus = s.ui.focus := by
  have hcore := core_setGeometry s r
  simp only [core, Prod.mk.injEq] at hcore
  obtain ⟨cl, ci, cm, cg, cp⟩ := hcore
  simp only [stackingMode, currentIndex]
  refine ⟨?_, ?_, ?_, cl, ci, cm, cg, cp, visible_setGeometry s r, ?_, ?_⟩
  · intro hm x
    unfold setGeometry
    simp only [hm]
    cases hc : currentWidget s with
    | none => simp
    | some c =>
      by_cases hx : x = c
      · simp [hx, setWidgetGeometry]
      · have : ¬ c = x := fun h => hx h.symm
        simp [hx, this, setWidgetGeometry]
  · intro hm hc
    unfold setGeometry
    simp only [hm, hc]
  · intro hm x
    unfold setGeometry
    simp only [hm]
    exact (foldl_setWidgetGeometry r s._list s).2.2.2 x
  · unfold setGeometry
    split
    · split <;> rfl
    · exact (foldl_setWidgetGeometry r s._list s).2.1
  · unfold setGeometry
    split
    · split <;> rfl
    · exact (foldl_setWidgetGeometry r s._list s).2.2.1

/-- C12 at A, B, C (10, 20, 30) with B current: in ShowOne mode only B gets
the rectangle, in ShowAll mode A gets it as well. -/
theorem C12_setGeometry_effect_witness :
    ((setGeometry (abc 1 StackingMode.StackOne Parent.withWidget allHidden)
        ⟨5, 5, 104, 54⟩).ui.geometry 20 = ⟨5, 5, 104, 54⟩ ∧
      (setGeometry (abc 1 StackingMode.StackOne Parent.withWidget allHidden)
        ⟨5, 5, 104, 54⟩).ui.geometry 10 = QRect.null) ∧
    (setGeometry (abc 1 StackingMode.StackAll Parent.withWidget allHidden)
        ⟨5, 5, 104, 54⟩).ui.geometry 10 = ⟨5, 5, 104, 54⟩ :=
  have h1 := (C12_setGeometry_effect (abc 1 StackingMode.StackOne Parent.withWidget allHidden)
    ⟨5, 5, 104, 54⟩).1 rfl
  have h2 := (C12_setGeometry_effect (abc 1 StackingMode.StackAll Parent.withWidget allHidden)
    ⟨5, 5, 104, 54⟩).2.2.1 rfl
  ⟨⟨(h1 20).trans (by decide), (h1 10).trans (by decide)⟩, (h2 10).trans (by decide)⟩

/-- C14: for every list of children, minimumSize() is the componentwise
maximum of zero and every child's smart minimum (smartMinSize applied to its
size hint, minimum-size hint, explicit minimum, explicit maximum and
policy): both dimensions are at least zero and at least the corresponding
dimension of every child's smart minimum, each is zero or attained by a
child, and the result is (0, 0) for an empty stack. -/
theorem C14_minimumSize_max (tk : Toolkit) (s : Stack) :
    (0 ≤ (minimumSize tk s).width ∧ 0 ≤ (minimumSize tk s).height) ∧
    (∀ w ∈ s._list,
      (smartMinSize (tk.sizeHint w) (tk.minimumSizeHint w) (tk.minimumSize w)
        (tk.maximumSize w) (tk.sizePolicy w)).width ≤ (minimumSize tk s).width ∧
      (smartMinSize (tk.sizeHint w) (tk.minimumSizeHint w) (tk.minimumSize w)
        (tk.maximumSize w) (tk.sizePolicy w)).height ≤ (minimumSize tk s).height) ∧
    (s._list = [] → minimumSize tk s = ⟨0, 0⟩) ∧
    some (minimumSize tk s).width =
      maxOver (0 :: s._list.map (fun w => (childMinimumSize tk w).width)) ∧
    some (minimumSize tk s).height =
      maxOver (0 :: s._list.map (fun w => (childMinimumSize tk w).height)) ∧
    ((minimumSize tk s).width = 0 ∨
      ∃ w ∈ s._list, (minimumSize tk s).width = (childMinimumSize tk w).width) ∧
    ((minimumSize tk s).height = 0 ∨
      ∃ w ∈ s._list, (minimumSize tk s).height = (childMinimumSize tk w).height) := by
  have hw : some (minimumSize tk s).width =
      maxOver (0 :: s._list.map (fun w => (childMinimumSize tk w).width)) :=
    foldl_expandedTo_width (childMinimumSize tk) s._list ⟨0, 0⟩
  have hh : some (minimumSize tk s).height =
      maxOver (0 :: s._list.map (fun w => (childMinimumSize tk w).height)) :=
    foldl_expandedTo_height (childMinimumSize tk) s._list ⟨0, 0⟩
  obtain ⟨hw1, hw2⟩ := maxOver_spec _ _ hw.symm
  obtain ⟨hh1, hh2⟩ := maxOver_spec _ _ hh.symm
  refine ⟨⟨hw1 0 (List.mem_cons_self _ _), hh1 0 (List.mem_cons_self _ _)⟩, ?_, ?_, hw, hh,
    ?_, ?_⟩
  · intro w hmem
    exact ⟨hw1 _ (List.mem_cons_of_mem _ (List.mem_map.2 ⟨w, hmem, rfl⟩)),
      hh1 _ (List.mem_cons_of_mem _ (List.mem_map.2 ⟨w, hmem, rfl⟩))⟩
  · intro hnil
    unfold minimumSize
    rw [hnil]
    rfl
  · rcases List.mem_cons.1 hw2 with h | h
    · exact Or.inl h
    · obtain ⟨w, hmem, he⟩ := List.mem_map.1 h
      exact Or.inr ⟨w, hmem, he.symm⟩
  · rcases List.mem_cons.1 hh2 with h | h
    · exact Or.inl h
    · obtain ⟨w, hmem, he⟩ := List.mem_map.1 h
      exact Or.inr ⟨w, hmem, he.symm⟩

/-- C14 at A, B, C (10, 20, 30) where A has the smart minimum (30, 25), B has
(60, 70) and C has (0, 0): minimumSize() is (60, 70). -/
theorem C14_minimumSize_max_witness :
    minimumSize sizedToolkit (abc 1 StackingMode.StackOne Parent.withWidget allHidden)
      = ⟨60, 70⟩ ∧
    childMinimumSize sizedToolkit 10 = ⟨30, 25⟩ ∧
    (childMinimumSize sizedToolkit 10).width ≤
      (minimumSize sizedToolkit
        (abc 1 StackingMode.StackOne Parent.withWidget allHidden)).width :=
  ⟨by decide, by decide,
    ((C14_minimumSize_max sizedToolkit
      (abc 1 StackingMode.StackOne Parent.withWidget allHidden)).2.1 10 (by decide)).1⟩

/-- C17: for every stack and every integer index, widget(index) is the null
pointer exactly when index < 0 or index >= count(), and otherwise it is the
widget registered at that position. -/
theorem C17_widget_null_iff_out_of_range (s : Stack) (index : Int) :
    (widget s index = Option.none ↔ (index < 0 ∨ index ≥ count s)) ∧
    (¬ (index < 0 ∨ index ≥ count s) →
      ∃ w, widget s index = some w ∧ s._list[index.toNat]? = some w) := by
  refine ⟨widget_eq_none_iff s index, ?_⟩
  intro h
  simp only [count] at h
  exact widget_of_valid s index (by omega) (by omega)

/-- C17 at the example of the specification: widget(5) on a stack of three
children is null, and widget(2) is the third child. -/
theorem C17_widget_null_iff_out_of_range_witness :
    widget (abc 0 StackingMode.StackOne Parent.none allHidden) 5 = Option.none ∧
    widget (abc 0 StackingMode.StackOne Parent.none allHidden) 2 = some 30 :=
  ⟨(C17_widget_null_iff_out_of_range (abc 0 StackingMode.StackOne Parent.none allHidden) 5).1.2
      (Or.inr (by decide)),
    by decide⟩

/-- C18: for every input of smartMinSize and each dimension independently: if
the explicit minimum size in that dimension is positive the result equals
it, whatever the hints, the policy and the maximum size are; otherwise the
result is max(0, min(b, maximum size)), where b is 0 for the policy Ignored,
the minimum-size hint for a policy with the shrink flag, and otherwise the
larger of the size hint and the minimum-size hint. -/
theorem C18_smartMinSize_value (sizeHint minSizeHint minSize maxSize : QSize)
    (sizePolicy : QSizePolicy) :
    (smartMinSize sizeHint minSizeHint minSize maxSize sizePolicy).width =
      (if minSize.width > 0 then minSize.width
       else max 0 (min (policyBase sizePolicy.horizontalPolicy sizeHint.width minSizeHint.width)
        maxSize.width)) ∧
    (smartMinSize sizeHint minSizeHint minSize maxSize sizePolicy).height =
      (if minSize.height > 0 then minSize.height
       else max 0 (min (policyBase sizePolicy.verticalPolicy sizeHint.height minSizeHint.height)
        maxSize.height)) := by
  obtain ⟨⟨hi, hs⟩, ⟨vi, vs⟩⟩ := sizePolicy
  unfold smartMinSize QSize.boundedTo QSize.expandedTo policyBase
  cases hi <;> cases hs <;> cases vi <;> cases vs <;>
    simp only [Bool.false_eq_true, Bool.true_eq_false, if_true, if_false] <;>
    (by_cases hw : minSize.width > 0 <;> by_cases hh : minSize.height > 0 <;>
      simp only [hw, hh, if_true, if_false] <;>
      constructor <;> omega)

/-- C18 at a child with hints (100, 40) and (20, 10), explicit minimum
(30, 0), maximum (50, 25) and a policy without flags: the width is the
explicit minimum 30, the height is max(0, min(max(40, 10), 25)) = 25. -/
theorem C18_smartMinSize_value_witness :
    smartMinSize ⟨100, 40⟩ ⟨20, 10⟩ ⟨30, 0⟩ ⟨50, 25⟩ ⟨⟨false, false⟩, ⟨false, false⟩⟩
      = ⟨30, 25⟩ ∧
    (smartMinSize ⟨100, 40⟩ ⟨20, 10⟩ ⟨30, 0⟩ ⟨50, 25⟩ ⟨⟨false, false⟩, ⟨false, false⟩⟩).height =
      (if (⟨30, 0⟩ : QSize).height > 0 then (⟨30, 0⟩ : QSize).height
       else max 0 (min (policyBase (⟨false, false⟩ : Policy) (⟨100, 40⟩ : QSize).height
        (⟨20, 10⟩ : QSize).height) (⟨50, 25⟩ : QSize).height)) :=
  ⟨by decide,
    (C18_smartMinSize_value ⟨100, 40⟩ ⟨20, 10⟩ ⟨30, 0⟩ ⟨50, 25⟩
      ⟨⟨false, false⟩, ⟨false, false⟩⟩).2⟩

/-! ## The attachment latch -/

theorem gotParent_step (tk : Toolkit) (s : Stack) (op : Op) (h : s._gotParent = true) :
    (step tk s op)._gotParent = true := by
  cases op with
  | insertWidget i w =>
    have hc := core_insertWidget tk s i w
    simp only [core, Prod.mk.injEq] at hc
    simp only [step]
    rw [hc.2.2.2.1, h]; rfl
  | takeAt i =>
    simp only [step]
    by_cases hv : i < 0 ∨ i ≥ s._list.length
    · rw [takeAt_of_invalid tk s i hv]; exact h
    · have hc := (takeAt_of_valid tk s i (by omega) (by omega)).2
      simp only [core, Prod.mk.injEq] at hc
      rw [hc.2.2.2.1]; exact h
  | setCurrentIndex i =>
    simp only [step]
    rcases setCurrentIndex_cases tk s i with hs | ⟨_, _, hc⟩
    · rw [hs]; exact h
    · simp only [core, Prod.mk.injEq] at hc
      rw [hc.2.2.2.1]; exact h
  | setStackingMode m =>
    have hc := core_setStackingMode s m
    simp only [core, Prod.mk.injEq] at hc
    simp only [step]
    rw [hc.2.2.2.1]; exact h
  | setGeometry r =>
    have hc := core_setGeometry s r
    simp only [core, Prod.mk.injEq] at hc
    simp only [step]
    rw [hc.2.2.2.1]; exact h
  | invalidate =>
    have hc := core_invalidate s
    simp only [core, Prod.mk.injEq] at hc
    simp only [step]
    rw [hc.2.2.2.1, h]; rfl
  | setParent p => exact h

/-- C15: the latch is one-way and its setup is applied once: no call, and no
change of parent, turns a set latch `_gotParent` back to unset; in every
state in which the latch is set invalidate() leaves the whole state as it
is (visibility, stacking order and every field of the layout); and in every
state invalidate() followed by invalidate() gives the state that a single
invalidate() gives. -/
theorem C15_latch_one_way (tk : Toolkit) (s : Stack) :
    (s._gotParent = true → ∀ ops : List Op, (run tk s ops)._gotParent = true) ∧
    (s._gotParent = true → invalidate s = s) ∧
    invalidate (invalidate s) = invalidate s := by
  refine ⟨?_, fun h => invalidate_of_latched s (Or.inr h), ?_⟩
  · intro h ops
    induction ops generalizing s with
    | nil => exact h
    | cons op rest ih => exact ih (step tk s op) (gotParent_step tk s op h)
  · by_cases hl : s.parent = Parent.withWidget ∧ s._gotParent = false
    · have hc := core_invalidate s
      simp only [core, Prod.mk.injEq] at hc
      apply invalidate_of_latched
      right
      rw [hc.2.2.2.1, hl.1]
      simp
    · have hs : invalidate s = s := by
        apply invalidate_of_latched
        by_cases hp : s.parent = Parent.withWidget
        · right
          cases hg : s._gotParent
          · exact absurd ⟨hp, hg⟩ hl
          · rfl
        · exact Or.inl hp
      rw [hs, hs]

/-- C15 at A, B, C (10, 20, 30) with B current under a parent widget, latch
not yet set and all widgets shown: the first invalidate() sets the latch and
hides A, the second changes nothing, and the latch stays set when the
parent is taken away and a child is removed. -/
theorem C15_latch_one_way_witness :
    (invalidate (abc 1 StackingMode.StackOne Parent.withWidget allShown))._gotParent = true ∧
    (invalidate (abc 1 StackingMode.StackOne Parent.withWidget allShown)).ui.visible 10 = false ∧
    invalidate (invalidate (abc 1 StackingMode.StackOne Parent.withWidget allShown))
      = invalidate (abc 1 StackingMode.StackOne Parent.withWidget allShown) ∧
    (run plainToolkit (invalidate (abc 1 StackingMode.StackOne Parent.withWidget allShown))
      [Op.setParent Parent.none, Op.takeAt 0, Op.invalidate])._gotParent = true :=
  ⟨by decide, by decide,
    (C15_latch_one_way plainToolkit
      (abc 1 StackingMode.StackOne Parent.withWidget allShown)).2.2,
    (C15_latch_one_way plainToolkit
      (invalidate (abc 1 StackingMode.StackOne Parent.withWidget allShown))).1 (by decide) _⟩

/-! ## A non-empty stack has a current child -/

theorem currentIffNonEmpty_step (tk : Toolkit) (s : Stack) (op : Op)
    (hs : CurrentIffNonEmpty s) : CurrentIffNonEmpty (step tk s op) := by
  obtain ⟨h2, h3⟩ := hs
  have hr : IndexInRange (step tk s op) := indexInRange_step tk s op h2
  refine ⟨hr, ?_⟩
  cases op with
  | insertWidget i w =>
    have hb := clampIndex_bounds s._list.length i
    have hc := core_insertWidget tk s i w
    simp only [core, Prod.mk.injEq] at hc
    intro _
    simp only [step]
    rw [hc.2.1]
    split
    · exact hb.1
    · split <;> omega
  | takeAt i =>
    simp only [step]
    by_cases hv : i < 0 ∨ i ≥ s._list.length
    · rw [takeAt_of_invalid tk s i hv]; exact h3
    · have hc := (takeAt_of_valid tk s i (by omega) (by omega)).2
      simp only [core, Prod.mk.injEq] at hc
      have hne : s._list ≠ [] := by
        intro h; rw [h] at hv; simp at hv; omega
      have hc0 := h3 hne
      intro hne2
      have hlen : ((takeAt tk s i).2._list.length : Int) = (s._list.length : Int) - 1 := by
        rw [hc.1, List.length_eraseIdx]
        have : i.toNat < s._list.length := by omega
        simp only [this, if_true]; omega
      have hpos : (s._list.length : Int) - 1 > 0 := by
        rw [← hlen]
        have := List.length_pos.2 hne2
        omega
      rw [hc.2.1]
      simp only [hpos, if_true]
      split
      · split <;> omega
      · split <;> omega
  | setCurrentIndex i =>
    simp only [step]
    rcases setCurrentIndex_cases tk s i with hs | ⟨h0, _, hc⟩
    · rw [hs]; exact h3
    · simp only [core, Prod.mk.injEq] at hc
      intro _; rw [hc.2.1]; exact h0
  | setStackingMode m =>
    have hc := core_setStackingMode s m
    simp only [core, Prod.mk.injEq] at hc
    simp only [step]
    rw [hc.1, hc.2.1]; exact h3
  | setGeometry r =>
    have hc := core_setGeometry s r
    simp only [core, Prod.mk.injEq] at hc
    simp only [step]
    rw [hc.1, hc.2.1]; exact h3
  | invalidate =>
    have hc := core_invalidate s
    simp only [core, Prod.mk.injEq] at hc
    simp only [step]
    rw [hc.1, hc.2.1]; exact h3
  | setParent p => exact h3

theorem currentIffNonEmpty_run (tk : Toolkit) (ops : List Op) (s : Stack)
    (hs : CurrentIffNonEmpty s) : CurrentIffNonEmpty (run tk s ops) := by
  induction ops generalizing s with
  | nil => exact hs
  | cons op rest ih => exact ih _ (currentIffNonEmpty_step tk s op hs)

/-- C19: in every state reachable from a newly constructed empty stack by any
sequence of insertWidget, takeAt, setCurrentIndex, setStackingMode,
setGeometry and invalidate calls, with the parent changing arbitrarily in
between, currentIndex() = -1 if and only if count() = 0: a non-empty stack
always has a current child. -/
theorem C19_no_current_iff_empty (tk : Toolkit) (ui : Widgets) (ops : List Op) :
    currentIndex (run tk (new ui) ops) = -1 ↔ count (run tk (new ui) ops) = 0 := by
  have hnew : CurrentIffNonEmpty (new ui) := by
    refine ⟨by simp [new], ?_⟩
    intro h; simp [new] at h
  obtain ⟨h2, h3⟩ := currentIffNonEmpty_run tk ops (new ui) hnew
  simp only [currentIndex, count]
  constructor
  · intro h
    by_contra hne
    have : (run tk (new ui) ops)._list ≠ [] := by
      intro hnil; rw [hnil] at hne; simp at hne
    have := h3 this
    omega
  · intro h
    omega

/-! ## Construction from a list of entries -/

theorem insertAt_length (l : List Nat) (w : Nat) : insertAt l l.length w = l ++ [w] := by
  simp [insertAt]

theorem core_addWidget (tk : Toolkit) (s : Stack) (w : Nat)
    (hs : s._index = if s._list = [] then -1 else 0) :
    (addWidget tk s w).2._list = s._list ++ [w] ∧ (addWidget tk s w).2._index = 0 := by
  have hc := core_insertWidget tk s s._list.length w
  have hcl := clampIndex_of_valid s._list.length s._list.length (by omega) (le_refl _)
  rw [hcl] at hc
  simp only [core, Prod.mk.injEq, Int.toNat_ofNat] at hc
  unfold addWidget
  refine ⟨by rw [hc.1, insertAt_length], ?_⟩
  rw [hc.2.1, hs]
  by_cases hnil : s._list = []
  · simp [hnil]
  · have : 0 < s._list.length := List.length_pos.2 hnil
    simp only [hnil, if_false]
    have h1 : ¬ ((0 : Int) < 0) := by omega
    have h2 : ¬ ((s._list.length : Int) ≤ 0) := by omega
    simp only [h1, h2, if_false]

theorem populate_spec (tk : Toolkit) (items : List Variant) (s : Stack)
    (hs : s._index = if s._list = [] then -1 else 0) :
    (populate tk items s)._list = s._list ++ widgetsBeforeNonProxy items ∧
    (populate tk items s)._index =
      if s._list ++ widgetsBeforeNonProxy items = [] then -1 else 0 := by
  induction items generalizing s with
  | nil => simp [populate, widgetsBeforeNonProxy, hs]
  | cons v rest ih =>
    cases v with
    | other => simp [populate, widgetsBeforeNonProxy, hs]
    | proxyOfObject =>
      have := ih s hs
      simpa [populate, widgetsBeforeNonProxy, Variant.toWidget] using this
    | proxyOfWidget w =>
      obtain ⟨hl, hi⟩ := core_addWidget tk s w hs
      have hs2 : (addWidget tk s w).2._index =
          if (addWidget tk s w).2._list = [] then -1 else 0 := by
        rw [hi, hl]; simp
      have := ih (addWidget tk s w).2 hs2
      rw [hl] at this
      simpa [populate, widgetsBeforeNonProxy, Variant.toWidget] using this

/-- C16 as stated fails: from the entries (widget 10, an object that is not a
widget, widget 20) the constructor registers 10 and 20, although the second
entry is not convertible to a widget and 20 comes after it; the entries that
precede the first such entry give only 10. -/
theorem C16_counterexample :
    (newFromList plainToolkit allHidden
      [Variant.proxyOfWidget 10, Variant.proxyOfObject, Variant.proxyOfWidget 20])._list
      = [10, 20] ∧
    specPopulated [Variant.proxyOfWidget 10, Variant.proxyOfObject, Variant.proxyOfWidget 20]
      = [10] ∧
    (newFromList plainToolkit allHidden
      [Variant.proxyOfWidget 10, Variant.proxyOfObject, Variant.proxyOfWidget 20])._list
      ≠ specPopulated
        [Variant.proxyOfWidget 10, Variant.proxyOfObject, Variant.proxyOfWidget 20] := by
  have h := (populate_spec plainToolkit
    [Variant.proxyOfWidget 10, Variant.proxyOfObject, Variant.proxyOfWidget 20]
    (new allHidden) rfl).1
  have hl : (newFromList plainToolkit allHidden
      [Variant.proxyOfWidget 10, Variant.proxyOfObject, Variant.proxyOfWidget 20])._list
      = [10, 20] := by
    unfold newFromList
    rw [h]
    decide
  refine ⟨hl, by decide, ?_⟩
  rw [hl]
  decide

/-- C16, amended: constructing a stack from an ordered list of entries
registers exactly the widgets among the entries that precede the first
entry that is not an object proxy, in list order; an entry whose proxy
refers to an object that is not a widget is left out without stopping; the
first widget registered is current (currentIndex() = 0 when any was
registered, -1 otherwise); and when no entry is a proxy of a non-widget
object this is the list of the widgets that precede the first entry not
convertible to a widget. -/
theorem C16_newFromList_children (tk : Toolkit) (ui : Widgets) (items : List Variant) :
    (newFromList tk ui items)._list = widgetsBeforeNonProxy items ∧
    currentIndex (newFromList tk ui items) =
      (if widgetsBeforeNonProxy items = [] then -1 else 0) ∧
    (∀ before after : List Variant,
      widgetsBeforeNonProxy (before ++ Variant.other :: after) = widgetsBeforeNonProxy before) ∧
    (∀ before after : List Variant,
      widgetsBeforeNonProxy (before ++ Variant.proxyOfObject :: after) =
        widgetsBeforeNonProxy (before ++ after)) ∧
    ((∀ v ∈ items, v ≠ Variant.proxyOfObject) →
      widgetsBeforeNonProxy items = specPopulated items) := by
  have h := populate_spec tk items (new ui) rfl
  have hnil : (new ui)._list = [] := rfl
  rw [hnil, List.nil_append] at h
  refine ⟨h.1, h.2, ?_, ?_, ?_⟩
  · intro before after
    induction before with
    | nil => simp [widgetsBeforeNonProxy]
    | cons v rest ih =>
      cases v with
      | other => simp [widgetsBeforeNonProxy]
      | proxyOfObject =>
        simpa [widgetsBeforeNonProxy, Variant.toWidget] using ih
      | proxyOfWidget w =>
        simpa [widgetsBeforeNonProxy, Variant.toWidget] using ih
  · intro before after
    induction before with
    | nil => simp [widgetsBeforeNonProxy, Variant.toWidget]
    | cons v rest ih =>
      cases v with
      | other => simp [widgetsBeforeNonProxy]
      | proxyOfObject =>
        simpa [widgetsBeforeNonProxy, Variant.toWidget] using ih
      | proxyOfWidget w =>
        simpa [widgetsBeforeNonProxy, Variant.toWidget] using ih
  · intro hno
    induction items with
    | nil => rfl
    | cons v rest ih =>
      have hrest : ∀ v ∈ rest, v ≠ Variant.proxyOfObject :=
        fun x hx => hno x (List.mem_cons_of_mem _ hx)
      have hpop := populate_spec tk rest (new ui) rfl
      rw [hnil, List.nil_append] at hpop
      cases v with
      | other => simp [widgetsBeforeNonProxy, specPopulated, Variant.toWidget]
      | proxyOfObject => exact absurd rfl (hno _ (List.mem_cons_self _ _))
      | proxyOfWidget w =>
        have := ih hpop hrest
        simpa [widgetsBeforeNonProxy, specPopulated, Variant.toWidget] using this

/-- C16, amended, at the entries (widget 10, widget 20, not a proxy, widget
30): the stack holds 10 and 20 with 10 current. -/
theorem C16_newFromList_children_witness :
    (newFromList plainToolkit allHidden
      [Variant.proxyOfWidget 10, Variant.proxyOfWidget 20, Variant.other,
        Variant.proxyOfWidget 30])._list = [10, 20] ∧
    currentIndex (newFromList plainToolkit allHidden
      [Variant.proxyOfWidget 10, Variant.proxyOfWidget 20, Variant.other,
        Variant.proxyOfWidget 30]) = 0 :=
  have h := C16_newFromList_children plainToolkit allHidden
    [Variant.proxyOfWidget 10, Variant.proxyOfWidget 20, Variant.other,
      Variant.proxyOfWidget 30]
  ⟨h.1.trans (by decide), h.2.1.trans (by decide)⟩

/-! ## ShowOne mode after the stack is given its parent -/

theorem run_append (tk : Toolkit) (s : Stack) (a b : List Op) :
    run tk s (a ++ b) = run tk (run tk s a) b := by
  unfold run
  rw [List.foldl_append]

theorem visible_foldl_lower (c : Nat) (l : List Nat) (u : Stack) :
    (l.foldl (fun t w => if w ≠ c then lower t w else t) u).ui.visible = u.ui.visible := by
  induction l generalizing u with
  | nil => rfl
  | cons a rest ih =>
    simp only [List.foldl_cons]
    rw [ih]
    split <;> rfl

theorem visible_foldl_showCurrent (c : Nat) (l : List Nat) (u : Stack) (x : Nat) :
    (l.foldl (fun t w => setVisible t w (w == c)) u).ui.visible x =
      if x ∈ l then (x == c) else u.ui.visible x := by
  induction l generalizing u with
  | nil => simp
  | cons a rest ih =>
    simp only [List.foldl_cons]
    rw [ih]
    by_cases hx : x ∈ rest
    · simp [hx]
    · by_cases hxa : x = a
      · simp [hxa, setVisible]
      · simp [hx, hxa, setVisible]

theorem visible_invalidate_first (s : Stack) (c : Nat)
    (hp : s.parent = Parent.withWidget) (hg : s._gotParent = false)
    (hc : currentWidget s = some c) (hm : s._mode = StackingMode.StackOne) (x : Nat) :
    (invalidate s).ui.visible x = if x ∈ s._list then (x == c) else s.ui.visible x := by
  have hne : s._list.length ≠ 0 := by
    intro h0
    have : s._list = [] := List.length_eq_zero.1 h0
    simp [currentWidget, this] at hc
  have hc2 : ∀ m q, currentWidget
      { _list := s._list, _index := s._index, _mode := m, _gotParent := true,
        parent := q, ui := s.ui } = some c := fun _ _ => hc
  unfold invalidate
  simp only [hp, hg, and_self, if_true, hne, if_false, hc2, hm]
  rw [visible_foldl_lower]
  exact visible_foldl_showCurrent c s._list _ x

theorem settled_first_invalidate (s : Stack) (hs : CurrentIffNonEmpty s)
    (hp : s.parent = Parent.withWidget) (hg : s._gotParent = false) :
    Settled Parent.withWidget (invalidate s) := by
  obtain ⟨h2, h3⟩ := hs
  have hcore := core_invalidate s
  simp only [core, Prod.mk.injEq] at hcore
  obtain ⟨cl, ci, cm, cg, cp⟩ := hcore
  refine ⟨by rw [cp, hp], ?_, ?_, ?_, ?_⟩
  · unfold IndexInRange; rw [cl, ci]; exact h2
  · rw [cl, ci]; exact h3
  · intro _ _; rw [cg, hp]; simp
  · intro hm x hx hvis
    rw [cm] at hm
    rw [cl] at hx
    have hne : s._list ≠ [] := List.ne_nil_of_mem hx
    have hc0 : 0 ≤ s._index := h3 hne
    obtain ⟨c, hwc, hlc⟩ := widget_of_valid s s._index hc0 h2.2
    have hcur : currentWidget s = some c := by
      rw [currentWidget_of_nonneg _ hc0]; exact hlc
    rw [visible_invalidate_first s c hp hg hcur hm] at hvis
    simp only [hx, if_true, beq_iff_eq] at hvis
    rw [currentWidget_of_nonneg _ (by rw [ci]; exact hc0), ci, cl, hlc, hvis]

theorem currentIffNonEmpty_newFromList (tk : Toolkit) (ui : Widgets) (items : List Variant) :
    CurrentIffNonEmpty (newFromList tk ui items) := by
  have h := populate_spec tk items (new ui) rfl
  have hnil : (new ui)._list = [] := rfl
  rw [hnil, List.nil_append] at h
  unfold CurrentIffNonEmpty newFromList
  rw [h.1, h.2]
  by_cases hw : widgetsBeforeNonProxy items = []
  · simp [hw]
  · have : 0 < (widgetsBeforeNonProxy items).length := List.length_pos.2 hw
    simp only [hw, if_false]
    refine ⟨⟨by omega, by omega⟩, fun _ => le_refl _⟩

/-- C10, amended: take a stack in any state reached from construction (empty,
or from a list of entries) by any calls and changes of parent, and give it
a parent, either while it has no child, or, with children registered, a
parent widget while the latch is still unset and with invalidate() as the
next call. As long as it keeps that parent, in every state reached by
further insertWidget, takeAt, setCurrentIndex, setStackingMode, setGeometry
and invalidate calls whose last call is a setCurrentIndex, whenever the
mode is ShowOne every visible registered child is the current child, and so
at most one registered child is visible. -/
theorem C10_showOne_visible_is_current (tk : Toolkit) (ui : Widgets) (items : List Variant)
    (history calls : List Op) (p : Parent) (i : Int)
    (hp : p ≠ Parent.none)
    (hcalls : ∀ op ∈ calls, op.isCall = true)
    (hentry : (run tk (newFromList tk ui items) history)._list = [] ∨
      (p = Parent.withWidget ∧ (run tk (newFromList tk ui items) history)._gotParent = false ∧
        ∃ rest, calls = Op.invalidate :: rest))
    (hm : stackingMode (run tk (newFromList tk ui items)
        (history ++ Op.setParent p :: (calls ++ [Op.setCurrentIndex i])))
      = StackingMode.StackOne) :
    (∀ w ∈ (run tk (newFromList tk ui items)
        (history ++ Op.setParent p :: (calls ++ [Op.setCurrentIndex i])))._list,
      (run tk (newFromList tk ui items)
        (history ++ Op.setParent p :: (calls ++ [Op.setCurrentIndex i]))).ui.visible w = true →
      currentWidget (run tk (newFromList tk ui items)
        (history ++ Op.setParent p :: (calls ++ [Op.setCurrentIndex i]))) = some w) ∧
    (∀ w1 ∈ (run tk (newFromList tk ui items)
        (history ++ Op.setParent p :: (calls ++ [Op.setCurrentIndex i])))._list,
      ∀ w2 ∈ (run tk (newFromList tk ui items)
        (history ++ Op.setParent p :: (calls ++ [Op.setCurrentIndex i])))._list,
      (run tk (newFromList tk ui items)
        (history ++ Op.setParent p :: (calls ++ [Op.setCurrentIndex i]))).ui.visible w1 = true →
      (run tk (newFromList tk ui items)
        (history ++ Op.setParent p :: (calls ++ [Op.setCurrentIndex i]))).ui.visible w2 = true →
      w1 = w2) := by
  have hinv : CurrentIffNonEmpty (run tk (newFromList tk ui items) history) :=
    currentIffNonEmpty_run tk history _ (currentIffNonEmpty_newFromList tk ui items)
  have hall : ∀ op ∈ calls ++ [Op.setCurrentIndex i], op.isCall = true := by
    intro op hop
    rcases List.mem_append.1 hop with h | h
    · exact hcalls op h
    · rw [List.mem_singleton.1 h]; rfl
  have hs : Settled p (run tk (newFromList tk ui items)
      (history ++ Op.setParent p :: (calls ++ [Op.setCurrentIndex i]))) := by
    rw [run_append]
    set s0 := run tk (newFromList tk ui items) history with hs0
    rcases hentry with hnil | ⟨hpw, hg, rest, hrest⟩
    · have hstart : Settled p { s0 with parent := p } := by
        refine ⟨rfl, hinv.1, fun h => absurd hnil h, fun _ h => absurd hnil h, ?_⟩
        intro _ x hx
        have hx2 : x ∈ s0._list := hx
        rw [hnil] at hx2
        cases hx2
      exact settled_run tk p (calls ++ [Op.setCurrentIndex i]) _ hp hall hstart
    · have hrestcalls : ∀ op ∈ rest ++ [Op.setCurrentIndex i], op.isCall = true := by
        intro op hop
        apply hall
        rw [hrest]
        exact List.mem_cons_of_mem _ hop
      subst hpw
      have hstart : Settled Parent.withWidget
          (invalidate { s0 with parent := Parent.withWidget }) :=
        settled_first_invalidate { s0 with parent := Parent.withWidget } hinv rfl hg
      rw [hrest]
      exact settled_run tk Parent.withWidget (rest ++ [Op.setCurrentIndex i]) _ hp
        hrestcalls hstart
  have hv := hs.2.2.2.2 hm
  refine ⟨hv, ?_⟩
  intro w1 h1 w2 h2 v1 v2
  have e1 := hv w1 h1 v1
  have e2 := hv w2 h2 v2
  rw [e1] at e2
  exact Option.some.inj e2

/-- C10, amended, at two stacks over widgets that were all shown beforehand.
(1) Built from the entries (widget 10, widget 20) without a parent, so that
10 is current and still visible; then a parent widget is given and
invalidate() and setCurrentIndex(1) are called: 10 is hidden and the
current child 20 is the visible one. (2) An empty stack (construction from no entries is the plain
constructor) given a parent before insertWidget(0, 10), insertWidget(1, 20),
setCurrentIndex(1): the same outcome. -/
theorem C10_showOne_visible_is_current_witness :
    (newFromList plainToolkit allShown [] = new allShown ∧
      (newFromList plainToolkit allShown
        [Variant.proxyOfWidget 10, Variant.proxyOfWidget 20]).ui.visible 10 = true ∧
      (∀ w ∈ (run plainToolkit
          (newFromList plainToolkit allShown [Variant.proxyOfWidget 10, Variant.proxyOfWidget 20])
          ([] ++ Op.setParent Parent.withWidget ::
            ([Op.invalidate] ++ [Op.setCurrentIndex 1])))._list,
        (run plainToolkit
          (newFromList plainToolkit allShown [Variant.proxyOfWidget 10, Variant.proxyOfWidget 20])
          ([] ++ Op.setParent Parent.withWidget ::
            ([Op.invalidate] ++ [Op.setCurrentIndex 1]))).ui.visible w = true →
        currentWidget (run plainToolkit
          (newFromList plainToolkit allShown [Variant.proxyOfWidget 10, Variant.proxyOfWidget 20])
          ([] ++ Op.setParent Parent.withWidget ::
            ([Op.invalidate] ++ [Op.setCurrentIndex 1]))) = some w) ∧
      (run plainToolkit
        (newFromList plainToolkit allShown [Variant.proxyOfWidget 10, Variant.proxyOfWidget 20])
        ([] ++ Op.setParent Parent.withWidget ::
          ([Op.invalidate] ++ [Op.setCurrentIndex 1]))).ui.visible 10 = false ∧
      (run plainToolkit
        (newFromList plainToolkit allShown [Variant.proxyOfWidget 10, Variant.proxyOfWidget 20])
        ([] ++ Op.setParent Parent.withWidget ::
          ([Op.invalidate] ++ [Op.setCurrentIndex 1]))).ui.visible 20 = true) ∧
    ((∀ w ∈ (run plainToolkit (newFromList plainToolkit allShown [])
          ([] ++ Op.setParent Parent.noWidget ::
            ([Op.insertWidget 0 10, Op.insertWidget 1 20] ++ [Op.setCurrentIndex 1])))._list,
        (run plainToolkit (newFromList plainToolkit allShown [])
          ([] ++ Op.setParent Parent.noWidget ::
            ([Op.insertWidget 0 10, Op.insertWidget 1 20] ++ [Op.setCurrentIndex 1]))).ui.visible w
          = true →
        currentWidget (run plainToolkit (newFromList plainToolkit allShown [])
          ([] ++ Op.setParent Parent.noWidget ::
            ([Op.insertWidget 0 10, Op.insertWidget 1 20] ++ [Op.setCurrentIndex 1]))) = some w) ∧
      (run plainToolkit (newFromList plainToolkit allShown [])
        ([] ++ Op.setParent Parent.noWidget ::
          ([Op.insertWidget 0 10, Op.insertWidget 1 20] ++ [Op.setCurrentIndex 1]))).ui.visible 10
        = false ∧
      (run plainToolkit (newFromList plainToolkit allShown [])
        ([] ++ Op.setParent Parent.noWidget ::
          ([Op.insertWidget 0 10, Op.insertWidget 1 20] ++ [Op.setCurrentIndex 1]))).ui.visible 20
        = true) :=
  ⟨⟨rfl, by decide,
      (C10_showOne_visible_is_current plainToolkit allShown
        [Variant.proxyOfWidget 10, Variant.proxyOfWidget 20] [] [Op.invalidate]
        Parent.withWidget 1 (by decide)
        (by intro op hop; rw [List.mem_singleton.1 hop]; rfl)
        (Or.inr ⟨rfl, by decide, ⟨[], rfl⟩⟩)
        (by decide)).1,
      by decide, by decide⟩,
    ⟨(C10_showOne_visible_is_current plainToolkit allShown [] []
        [Op.insertWidget 0 10, Op.insertWidget 1 20] Parent.noWidget 1 (by decide)
        (by intro op hop; simp at hop; rcases hop with h | h <;> rw [h] <;> rfl)
        (Or.inl rfl)
        (by decide)).1,
      by decide, by decide⟩⟩

end QcStackLayout
